import Mathlib

/-!
# Verification of the byte-layout visualizer core

Shallow embedding of the segment hierarchy builder
(`SegmentHierarchyBuilder`), the proportional layout calculator
(`SegmentLayoutCalculator`) and the drill-down navigation state machine
(`SvgByteVisualizer`) of the repository, together with theorems settling
the specification claims about them.

Conventions used throughout the embedding:

* JS numbers are modelled as `Int` (byte offsets and sizes) and `ℚ`
  (pixel arithmetic).  JS division by zero yields `NaN`/`Infinity`; in
  `ℚ` it yields `0`.  Every theorem whose truth could be affected by
  this carries a hypothesis (for example `0 < totalSize`) that keeps the
  model inside the region where the two semantics agree, and every
  degenerate-input counterexample is stated as a disequality, whose
  verdict agrees with the JS `NaN` behaviour.
* `JSON.stringify(x).length` (used once, for a metadata-size fallback)
  is not computable from the structured model, so the functions that
  need it take it as an explicit `jsonLen : Int` argument.
* `Math.log10` and `Math.pow (·, 1 / LOG_SCALE_FACTOR)` are
  transcendental; the layout functions take them as function arguments
  `log10, powInv : ℚ → ℚ`, and theorems that need their properties
  assume exactly monotonicity of `log10` on `[1, ∞)` and that `powInv`
  maps `[0,1]` into `[0,1]` — properties the real functions have.
* JS `a || b` on numbers (`b` the default) is falsy on `0`, modelled by
  `jsOr`.  JS objects preserve string-key insertion order; they are
  modelled as association lists.
* A thrown exception (`ParquetSegment` validation) is modelled by
  `Except String`.
-/

/-! ## Segment domain object (`src/js/domain/parquet-segment.js`)

Only the fields inspected by the verified claims are carried; the opaque
`metadata` / `physicalMetadata` / `logicalMetadata` payloads and the
derived display strings are omitted (no claim below inspects them).
The JS field `end` is spelled `stop` (`end` is a Lean keyword). -/

structure Seg where
  id : String
  name : String
  start : Int
  stop : Int
  rowGroupIndex : Option Int
  chunkIndex : Option Int
  pageIndex : Option Int
  columnPath : Option String
deriving Repr, DecidableEq

/-- `get size() { return Math.max(0, this.end - this.start); }` -/
def Seg.size (s : Seg) : Int := max 0 (s.stop - s.start)

/-- `ParquetSegment._validate`: constructing a segment throws when
`start < 0`, `end < start`, or a present index is negative.  The
constructor is modelled as a fallible factory. -/
def mkSeg (id name : String) (start stop : Int)
    (rowGroupIndex chunkIndex pageIndex : Option Int)
    (columnPath : Option String) : Except String Seg :=
  if start < 0 then .error "start offset cannot be negative"
  else if stop < start then .error "end offset cannot be less than start offset"
  else if (rowGroupIndex.getD 0) < 0 then .error "rowGroupIndex cannot be negative"
  else if (chunkIndex.getD 0) < 0 then .error "chunkIndex cannot be negative"
  else if (pageIndex.getD 0) < 0 then .error "pageIndex cannot be negative"
  else .ok ⟨id, name, start, stop, rowGroupIndex, chunkIndex, pageIndex, columnPath⟩

/-- Plain segment factory used by the layout development, where only the
byte range matters. -/
def seg0 (id : String) (start stop : Int) : Seg :=
  ⟨id, id, start, stop, none, none, none, none⟩

/-! ## Layout calculator (`src/js/business/segment-layout-calculator.js`) -/

/-- The numeric fields of `VisualizationConfig.LAYOUT` consumed by
`calculateSegmentWidths` / `calculateLogarithmicMinWidths` /
`calculateSegmentPositions`. -/
structure LayoutConfig where
  STARTING_BASELINE : ℚ
  MIN_SEGMENT_WIDTH : ℚ
  MAX_MIN_SEGMENT_WIDTH : ℚ
  LOG_SCALE_FACTOR : ℚ
  LEVEL_HEIGHT : ℚ
  SEGMENT_MARGIN : ℚ
deriving Repr, DecidableEq

/-- The default values of `VisualizationConfig.LAYOUT`
(`src/js/config/visualization-config.js`). -/
def defaultLayout : LayoutConfig :=
  { STARTING_BASELINE := 5
    MIN_SEGMENT_WIDTH := 3
    MAX_MIN_SEGMENT_WIDTH := 25
    LOG_SCALE_FACTOR := 2
    LEVEL_HEIGHT := 40
    SEGMENT_MARGIN := 2 }

/-- `Math.min(...)` over a list, as applied to nonempty argument lists
(`[]` gives `0`, a case never reached under the guards of the source). -/
def jsMin [LinearOrder α] [Zero α] : List α → α
  | [] => 0
  | x :: xs => xs.foldl min x

/-- `Math.max(...)` over a list. -/
def jsMax [LinearOrder α] [Zero α] : List α → α
  | [] => 0
  | x :: xs => xs.foldl max x

/-- `SegmentLayoutCalculator.calculateLogarithmicMinWidths`.

`log10` stands for `Math.log10` and `powInv` for
`fun x => Math.pow x (1 / config.LOG_SCALE_FACTOR)`; both are passed in
because they are transcendental (see the file header).  The
`totalSize` parameter is accepted and ignored exactly as in the source. -/
def calculateLogarithmicMinWidths (log10 powInv : ℚ → ℚ) (segments : List Seg)
    (_totalSize containerWidth : ℚ) (config : LayoutConfig) : List ℚ :=
  let startingBaseline := config.STARTING_BASELINE
  let adjustedBaseline := min startingBaseline (containerWidth / segments.length)
  if adjustedBaseline < config.MIN_SEGMENT_WIDTH then
    segments.map fun _ => containerWidth / segments.length
  else
    let sizes : List ℚ := segments.map fun s => max 1 (s.size : ℚ)
    let minSize := jsMin sizes
    let maxSize := jsMax sizes
    if minSize = maxSize then
      segments.map fun _ => adjustedBaseline
    else
      let logMinSize := log10 minSize
      let logMaxSize := log10 maxSize
      let logRange := logMaxSize - logMinSize
      let logarithmicWidths := sizes.map fun size =>
        let logPosition := (log10 size - logMinSize) / logRange
        let scaledPosition := powInv logPosition
        adjustedBaseline +
          (config.MAX_MIN_SEGMENT_WIDTH - adjustedBaseline) * scaledPosition
      let totalLogarithmicWidth := logarithmicWidths.sum
      if totalLogarithmicWidth > containerWidth then
        logarithmicWidths.map fun width => width * (containerWidth / totalLogarithmicWidth)
      else
        logarithmicWidths

/-- The per-segment working record built inside
`calculateSegmentWidths` (the `segmentData` array). -/
structure SegData where
  segment : Seg
  naturalWidthPercent : ℚ
  naturalWidthPixels : ℚ
  finalWidthPercent : ℚ
  finalWidthPixels : ℚ
  isExpanded : Bool
  minWidth : ℚ
deriving Repr, DecidableEq

/-- The initial `segmentData` array: natural widths from the byte span,
final widths zeroed, paired with the computed minimum widths. -/
def mkSegmentData (totalSize containerWidth : ℚ) (segments : List Seg)
    (minWidths : List ℚ) : List SegData :=
  (segments.zip minWidths).map fun p =>
    { segment := p.1
      naturalWidthPercent := ((p.1.size : ℚ) / totalSize) * 100
      naturalWidthPixels := ((p.1.size : ℚ) / totalSize) * containerWidth
      finalWidthPercent := 0
      finalWidthPixels := 0
      isExpanded := false
      minWidth := p.2 }

/-- The expansion pass: a segment whose natural pixel width is below its
minimum width is marked expanded and pinned to the minimum. -/
def markExpanded (containerWidth : ℚ) (data : List SegData) : List SegData :=
  data.map fun d =>
    if d.naturalWidthPixels < d.minWidth then
      { d with isExpanded := true
               finalWidthPercent := (d.minWidth / containerWidth) * 100
               finalWidthPixels := d.minWidth }
    else
      { d with finalWidthPercent := d.naturalWidthPercent
               finalWidthPixels := d.naturalWidthPixels }

/-- The redistribution pass: if expansion consumed extra space,
non-expanded segments are scaled down proportionally to fill exactly
the remaining share of the container. -/
def redistribute (containerWidth : ℚ) (data : List SegData) : List SegData :=
  let expanded := data.filter fun d => d.isExpanded
  let extraSpaceUsed :=
    (expanded.map fun d => d.finalWidthPercent - d.naturalWidthPercent).sum
  if 0 < extraSpaceUsed then
    let availableSpace := 100 - (expanded.map fun d => d.finalWidthPercent).sum
    let naturalSpaceForNonExpanded :=
      ((data.filter fun d => !d.isExpanded).map fun d => d.naturalWidthPercent).sum
    if 0 < naturalSpaceForNonExpanded then
      let scaleFactor := availableSpace / naturalSpaceForNonExpanded
      data.map fun d =>
        if d.isExpanded then d
        else
          { d with finalWidthPercent := d.naturalWidthPercent * scaleFactor
                   finalWidthPixels :=
                     d.naturalWidthPercent * scaleFactor / 100 * containerWidth }
    else data
  else data

/-- One entry of the layout array returned by
`calculateSegmentPositions`. -/
structure SegLayout where
  segment : Seg
  x : ℚ
  y : ℚ
  width : ℚ
  height : ℚ
  widthPercent : ℚ
  isExpanded : Bool
  naturalWidth : ℚ
  minWidth : ℚ
deriving Repr, DecidableEq

/-- The running `currentLeft` accumulation inside
`calculateSegmentPositions` (the source walks the array once with a
mutable `currentLeft`, which is this recursion). -/
def positionsFrom (config : LayoutConfig) (currentLeft : ℚ) :
    List SegData → List SegLayout
  | [] => []
  | d :: rest =>
      { segment := d.segment
        x := currentLeft
        y := config.SEGMENT_MARGIN
        width := d.finalWidthPixels
        height := config.LEVEL_HEIGHT - 2 * config.SEGMENT_MARGIN
        widthPercent := d.finalWidthPercent
        isExpanded := d.isExpanded
        naturalWidth := d.naturalWidthPixels
        minWidth := d.minWidth } :: positionsFrom config (currentLeft + d.finalWidthPixels) rest

/-- `SegmentLayoutCalculator.calculateSegmentPositions`: cumulative
left-to-right placement starting at the left edge. -/
def calculateSegmentPositions (config : LayoutConfig) (data : List SegData) :
    List SegLayout :=
  positionsFrom config 0 data

/-- `SegmentLayoutCalculator.calculateSegmentWidths`. -/
def calculateSegmentWidths (log10 powInv : ℚ → ℚ) (segments : List Seg)
    (containerWidth : ℚ) (config : LayoutConfig) : List SegLayout :=
  if segments.isEmpty then []
  else
    let minStart : Int := jsMin (segments.map fun s => s.start)
    let maxEnd : Int := jsMax (segments.map fun s => s.stop)
    let totalSize : ℚ := ((maxEnd : ℚ) - (minStart : ℚ))
    let minWidths :=
      calculateLogarithmicMinWidths log10 powInv segments totalSize containerWidth config
    let segmentData := mkSegmentData totalSize containerWidth segments minWidths
    calculateSegmentPositions config
      (redistribute containerWidth (markExpanded containerWidth segmentData))

/-- Projection: the pixel widths of a computed layout. -/
def layoutWidths (l : List SegLayout) : List ℚ := l.map fun d => d.width

/-! ## List summation helpers -/

theorem sum_map_split (l : List α) (p : α → Bool) (f : α → ℚ) :
    (l.map f).sum =
      ((l.filter p).map f).sum + ((l.filter fun x => !p x).map f).sum := by
  induction l with
  | nil => simp
  | cons a t ih =>
    by_cases h : p a <;> simp [List.filter_cons, h, ih] <;> ring

theorem sum_map_const (l : List α) (c : ℚ) :
    (l.map fun _ => c).sum = l.length * c := by
  induction l with
  | nil => simp
  | cons a t ih => simp [ih]; ring

theorem sum_map_mul_const (l : List α) (f : α → ℚ) (c : ℚ) :
    (l.map fun x => f x * c).sum = (l.map f).sum * c := by
  induction l with
  | nil => simp
  | cons a t ih => simp [ih]; ring

theorem sum_map_mul_self (l : List ℚ) (c : ℚ) :
    (l.map fun x => x * c).sum = l.sum * c := by
  induction l with
  | nil => simp
  | cons a t ih => simp [ih]; ring

theorem sum_map_sub (l : List α) (f g : α → ℚ) :
    (l.map fun x => f x - g x).sum = (l.map f).sum - (l.map g).sum := by
  induction l with
  | nil => simp
  | cons a t ih => simp [ih]; ring

theorem sum_map_nonneg (l : List α) (f : α → ℚ) (h : ∀ x ∈ l, 0 ≤ f x) :
    0 ≤ (l.map f).sum := by
  induction l with
  | nil => simp
  | cons a t ih =>
    simp only [List.map_cons, List.sum_cons]
    have := h a (by simp)
    have := ih fun x hx => h x (by simp [hx])
    linarith

theorem sum_map_pos (l : List α) (f : α → ℚ) (hne : l ≠ [])
    (h : ∀ x ∈ l, 0 < f x) : 0 < (l.map f).sum := by
  cases l with
  | nil => exact absurd rfl hne
  | cons a t =>
    simp only [List.map_cons, List.sum_cons]
    have := h a (by simp)
    have := sum_map_nonneg t f fun x hx => le_of_lt (h x (by simp [hx]))
    linarith

theorem sum_map_eq_zero_of_forall (l : List α) (f : α → ℚ)
    (h : ∀ x ∈ l, f x = 0) : (l.map f).sum = 0 := by
  induction l with
  | nil => simp
  | cons a t ih =>
    simp only [List.map_cons, List.sum_cons, h a (by simp),
      ih fun x hx => h x (by simp [hx]), add_zero]

/-! ## Bounds for `jsMin` / `jsMax` -/

theorem foldl_min_le_init [LinearOrder α] (l : List α) (a : α) :
    l.foldl min a ≤ a := by
  induction l generalizing a with
  | nil => simp
  | cons b t ih =>
    simp only [List.foldl_cons]
    exact le_trans (ih (min a b)) (min_le_left a b)

theorem le_foldl_max_init [LinearOrder α] (l : List α) (a : α) :
    a ≤ l.foldl max a := by
  induction l generalizing a with
  | nil => simp
  | cons b t ih =>
    simp only [List.foldl_cons]
    exact le_trans (le_max_left a b) (ih (max a b))

theorem foldl_min_le_mem [LinearOrder α] (l : List α) (a x : α) (hx : x ∈ l) :
    l.foldl min a ≤ x := by
  induction l generalizing a with
  | nil => cases hx
  | cons b t ih =>
    simp only [List.foldl_cons]
    rcases List.mem_cons.1 hx with h | h
    · subst h
      exact le_trans (foldl_min_le_init t (min a x)) (min_le_right a x)
    · exact ih (min a b) h

theorem mem_le_foldl_max [LinearOrder α] (l : List α) (a x : α) (hx : x ∈ l) :
    x ≤ l.foldl max a := by
  induction l generalizing a with
  | nil => cases hx
  | cons b t ih =>
    simp only [List.foldl_cons]
    rcases List.mem_cons.1 hx with h | h
    · subst h
      exact le_trans (le_max_right a x) (le_foldl_max_init t (max a x))
    · exact ih (max a b) h

theorem foldl_min_mem [LinearOrder α] (l : List α) (a : α) :
    l.foldl min a = a ∨ l.foldl min a ∈ l := by
  induction l generalizing a with
  | nil => left; rfl
  | cons b t ih =>
    simp only [List.foldl_cons]
    rcases ih (min a b) with h | h
    · rcases le_total a b with hab | hab
      · left; rw [h, min_eq_left hab]
      · right; rw [h, min_eq_right hab]; simp
    · right; simp [h]

theorem foldl_max_mem [LinearOrder α] (l : List α) (a : α) :
    l.foldl max a = a ∨ l.foldl max a ∈ l := by
  induction l generalizing a with
  | nil => left; rfl
  | cons b t ih =>
    simp only [List.foldl_cons]
    rcases ih (max a b) with h | h
    · rcases le_total a b with hab | hab
      · right; rw [h, max_eq_right hab]; simp
      · left; rw [h, max_eq_left hab]
    · right; simp [h]

theorem jsMin_le [LinearOrder α] [Zero α] (l : List α) (x : α) (hx : x ∈ l) :
    jsMin l ≤ x := by
  cases l with
  | nil => cases hx
  | cons a t =>
    simp only [jsMin]
    rcases List.mem_cons.1 hx with h | h
    · subst h; exact foldl_min_le_init t x
    · exact foldl_min_le_mem t a x h

theorem le_jsMax [LinearOrder α] [Zero α] (l : List α) (x : α) (hx : x ∈ l) :
    x ≤ jsMax l := by
  cases l with
  | nil => cases hx
  | cons a t =>
    simp only [jsMax]
    rcases List.mem_cons.1 hx with h | h
    · subst h; exact le_foldl_max_init t x
    · exact mem_le_foldl_max t a x h

theorem jsMin_mem [LinearOrder α] [Zero α] (l : List α) (hne : l ≠ []) :
    jsMin l ∈ l := by
  cases l with
  | nil => exact absurd rfl hne
  | cons a t =>
    simp only [jsMin]
    rcases foldl_min_mem t a with h | h
    · simp [h]
    · simp [List.mem_cons, h]

theorem jsMax_mem [LinearOrder α] [Zero α] (l : List α) (hne : l ≠ []) :
    jsMax l ∈ l := by
  cases l with
  | nil => exact absurd rfl hne
  | cons a t =>
    simp only [jsMax]
    rcases foldl_max_mem t a with h | h
    · simp [h]
    · simp [List.mem_cons, h]

/-! ## Properties of the computed minimum-width floors -/

theorem minWidths_length (log10 powInv : ℚ → ℚ) (segments : List Seg)
    (ts cw : ℚ) (config : LayoutConfig) :
    (calculateLogarithmicMinWidths log10 powInv segments ts cw config).length =
      segments.length := by
  simp only [calculateLogarithmicMinWidths]
  split_ifs <;> simp only [List.length_map]

/-- Under the numeric side conditions that the default configuration
satisfies, every computed floor is positive and the floors sum to at
most the container width (the source scales them down when they would
exceed it). -/
theorem minWidths_pos_sum_le (log10 powInv : ℚ → ℚ) (segments : List Seg)
    (ts cw : ℚ) (config : LayoutConfig)
    (hne : segments ≠ [])
    (hcw : 0 < cw)
    (hSB : 0 < config.STARTING_BASELINE)
    (hSBM : config.STARTING_BASELINE ≤ config.MAX_MIN_SEGMENT_WIDTH)
    (hmono : ∀ a b : ℚ, 1 ≤ a → a ≤ b → log10 a ≤ log10 b)
    (hstrict : ∀ a b : ℚ, 1 ≤ a → a < b → log10 a < log10 b)
    (hpow : ∀ x : ℚ, 0 ≤ x → x ≤ 1 → 0 ≤ powInv x ∧ powInv x ≤ 1) :
    (∀ w ∈ calculateLogarithmicMinWidths log10 powInv segments ts cw config, 0 < w) ∧
      (calculateLogarithmicMinWidths log10 powInv segments ts cw config).sum ≤ cw := by
  have hn : 0 < segments.length := List.length_pos.2 hne
  have hnQ : (0 : ℚ) < (segments.length : ℚ) := by exact_mod_cast hn
  have hnQne : (segments.length : ℚ) ≠ 0 := ne_of_gt hnQ
  have hdiv : 0 < cw / (segments.length : ℚ) := div_pos hcw hnQ
  simp only [calculateLogarithmicMinWidths]
  split_ifs with h1 h2 h3
  · -- uniform fallback
    refine ⟨fun w hw => ?_, ?_⟩
    · rcases List.mem_map.1 hw with ⟨s, _, rfl⟩
      exact hdiv
    · rw [sum_map_const, mul_div_cancel₀ _ hnQne]
  · -- all sizes equal: every floor is the adjusted baseline
    have hB : 0 < min config.STARTING_BASELINE (cw / (segments.length : ℚ)) :=
      lt_min hSB hdiv
    refine ⟨fun w hw => ?_, ?_⟩
    · rcases List.mem_map.1 hw with ⟨s, _, rfl⟩
      exact hB
    · rw [sum_map_const]
      calc (segments.length : ℚ) * min config.STARTING_BASELINE (cw / (segments.length : ℚ))
          ≤ (segments.length : ℚ) * (cw / (segments.length : ℚ)) :=
            mul_le_mul_of_nonneg_left (min_le_right _ _) (le_of_lt hnQ)
        _ = cw := by rw [mul_div_cancel₀ _ hnQne]
  all_goals {
    -- logarithmic branch (with and without the proportional scale-down)
    have hB : 0 < min config.STARTING_BASELINE (cw / (segments.length : ℚ)) :=
      lt_min hSB hdiv
    have hBM : min config.STARTING_BASELINE (cw / (segments.length : ℚ)) ≤
        config.MAX_MIN_SEGMENT_WIDTH :=
      le_trans (min_le_left _ _) hSBM
    have hsizes_ne : segments.map (fun s => max 1 (s.size : ℚ)) ≠ [] := by
      simp [hne]
    have h1le : ∀ x ∈ segments.map (fun s => max 1 (s.size : ℚ)), (1 : ℚ) ≤ x := by
      intro x hx
      rcases List.mem_map.1 hx with ⟨s, _, rfl⟩
      exact le_max_left _ _
    have hminmem := jsMin_mem _ hsizes_ne
    have hmaxmem := jsMax_mem _ hsizes_ne
    have h1min : (1 : ℚ) ≤ jsMin (segments.map fun s => max 1 (s.size : ℚ)) :=
      h1le _ hminmem
    have hminmax : jsMin (segments.map fun s => max 1 (s.size : ℚ)) <
        jsMax (segments.map fun s => max 1 (s.size : ℚ)) :=
      lt_of_le_of_ne (jsMin_le _ _ hmaxmem) h2
    have hrange : 0 < log10 (jsMax (segments.map fun s => max 1 (s.size : ℚ))) -
        log10 (jsMin (segments.map fun s => max 1 (s.size : ℚ))) :=
      sub_pos.2 (hstrict _ _ h1min hminmax)
    have hwidth : ∀ x ∈ segments.map (fun s => max 1 (s.size : ℚ)),
        0 < min config.STARTING_BASELINE (cw / (segments.length : ℚ)) +
          (config.MAX_MIN_SEGMENT_WIDTH -
            min config.STARTING_BASELINE (cw / (segments.length : ℚ))) *
          powInv ((log10 x - log10 (jsMin (segments.map fun s => max 1 (s.size : ℚ)))) /
            (log10 (jsMax (segments.map fun s => max 1 (s.size : ℚ))) -
              log10 (jsMin (segments.map fun s => max 1 (s.size : ℚ))))) := by
      intro x hx
      have h1x : (1 : ℚ) ≤ x := h1le x hx
      have hlo : log10 (jsMin (segments.map fun s => max 1 (s.size : ℚ))) ≤ log10 x :=
        hmono _ _ h1min (jsMin_le _ _ hx)
      have hhi : log10 x ≤ log10 (jsMax (segments.map fun s => max 1 (s.size : ℚ))) :=
        hmono _ _ h1x (le_jsMax _ _ hx)
      have hp0 : 0 ≤ (log10 x - log10 (jsMin (segments.map fun s => max 1 (s.size : ℚ)))) /
          (log10 (jsMax (segments.map fun s => max 1 (s.size : ℚ))) -
            log10 (jsMin (segments.map fun s => max 1 (s.size : ℚ)))) :=
        div_nonneg (sub_nonneg.2 hlo) (le_of_lt hrange)
      have hp1 : (log10 x - log10 (jsMin (segments.map fun s => max 1 (s.size : ℚ)))) /
          (log10 (jsMax (segments.map fun s => max 1 (s.size : ℚ))) -
            log10 (jsMin (segments.map fun s => max 1 (s.size : ℚ)))) ≤ 1 :=
        (div_le_one hrange).2 (by linarith)
      obtain ⟨hs0, _⟩ := hpow _ hp0 hp1
      nlinarith [mul_nonneg (sub_nonneg.2 hBM) hs0]
    have hsum_pos : 0 < ((segments.map fun s => max 1 (s.size : ℚ)).map fun size =>
        min config.STARTING_BASELINE (cw / (segments.length : ℚ)) +
          (config.MAX_MIN_SEGMENT_WIDTH -
            min config.STARTING_BASELINE (cw / (segments.length : ℚ))) *
          powInv ((log10 size - log10 (jsMin (segments.map fun s => max 1 (s.size : ℚ)))) /
            (log10 (jsMax (segments.map fun s => max 1 (s.size : ℚ))) -
              log10 (jsMin (segments.map fun s => max 1 (s.size : ℚ)))))).sum :=
      sum_map_pos _ _ hsizes_ne hwidth
    first
    | -- scale-down case
      (refine ⟨fun w hw => ?_, ?_⟩
       · rcases List.mem_map.1 hw with ⟨w0, hw0, rfl⟩
         rcases List.mem_map.1 hw0 with ⟨x, hx, rfl⟩
         exact mul_pos (hwidth x hx) (div_pos hcw hsum_pos)
       · rw [sum_map_mul_self]
         rw [mul_comm, div_mul_cancel₀ _ (ne_of_gt hsum_pos)])
    | -- no scale-down: the sum is at most the container width
      (refine ⟨fun w hw => ?_, ?_⟩
       · rcases List.mem_map.1 hw with ⟨x, hx, rfl⟩
         exact hwidth x hx
       · linarith)
  }

/-! ## Structural lemmas about the width pipeline -/

theorem layoutWidths_positionsFrom (config : LayoutConfig) (x : ℚ)
    (data : List SegData) :
    layoutWidths (positionsFrom config x data) =
      data.map fun d => d.finalWidthPixels := by
  induction data generalizing x with
  | nil => rfl
  | cons d rest ih => simp [positionsFrom, layoutWidths, List.map_cons] at ih ⊢; exact ih _

theorem mem_positionsFrom (config : LayoutConfig) (x : ℚ) (data : List SegData)
    (lay : SegLayout) (h : lay ∈ positionsFrom config x data) :
    ∃ d ∈ data, lay.width = d.finalWidthPixels ∧ lay.isExpanded = d.isExpanded ∧
      lay.naturalWidth = d.naturalWidthPixels ∧ lay.minWidth = d.minWidth := by
  induction data generalizing x with
  | nil => cases h
  | cons d rest ih =>
    simp only [positionsFrom, List.mem_cons] at h
    rcases h with h | h
    · exact ⟨d, by simp, by simp [h]⟩
    · rcases ih _ h with ⟨d', hd', hw⟩
      exact ⟨d', by simp [hd'], hw⟩

theorem markExpanded_map_natPx (cw : ℚ) (dat : List SegData) :
    (markExpanded cw dat).map (fun d => d.naturalWidthPixels) =
      dat.map fun d => d.naturalWidthPixels := by
  simp only [markExpanded, List.map_map]
  apply List.map_congr_left
  intro d _
  by_cases h : d.naturalWidthPixels < d.minWidth <;> simp [h]

theorem markExpanded_map_natPct (cw : ℚ) (dat : List SegData) :
    (markExpanded cw dat).map (fun d => d.naturalWidthPercent) =
      dat.map fun d => d.naturalWidthPercent := by
  simp only [markExpanded, List.map_map]
  apply List.map_congr_left
  intro d _
  by_cases h : d.naturalWidthPixels < d.minWidth <;> simp [h]

theorem markExpanded_map_minWidth (cw : ℚ) (dat : List SegData) :
    (markExpanded cw dat).map (fun d => d.minWidth) =
      dat.map fun d => d.minWidth := by
  simp only [markExpanded, List.map_map]
  apply List.map_congr_left
  intro d _
  by_cases h : d.naturalWidthPixels < d.minWidth <;> simp [h]

theorem markExpanded_ne_nil (cw : ℚ) (dat : List SegData) (h : dat ≠ []) :
    markExpanded cw dat ≠ [] := by
  simpa [markExpanded] using h

theorem markExpanded_spec (cw : ℚ) (dat : List SegData)
    (h0 : ∀ d ∈ dat, d.isExpanded = false) :
    ∀ e ∈ markExpanded cw dat,
      (e.isExpanded = true → e.finalWidthPixels = e.minWidth ∧
        e.finalWidthPercent = e.minWidth / cw * 100 ∧
        e.naturalWidthPixels < e.minWidth) ∧
      (e.isExpanded = false → e.finalWidthPixels = e.naturalWidthPixels ∧
        e.finalWidthPercent = e.naturalWidthPercent ∧
        ¬e.naturalWidthPixels < e.minWidth) := by
  intro e he
  rcases List.mem_map.1 he with ⟨d, hd, rfl⟩
  by_cases h : d.naturalWidthPixels < d.minWidth
  · simp [h]
  · simp [h, h0 d hd]

/-- Redistribution never touches an expanded entry: the expanded
sublist is returned unchanged. -/
theorem redistribute_filter_expanded (cw : ℚ) (data : List SegData) :
    (redistribute cw data).filter (fun d => d.isExpanded) =
      data.filter fun d => d.isExpanded := by
  simp only [redistribute]
  split_ifs with h1 h2
  · rw [List.filter_map]
    have hcong : data.filter
        ((fun d => d.isExpanded) ∘ fun d =>
          if d.isExpanded then d
          else
            { d with
              finalWidthPercent := d.naturalWidthPercent *
                ((100 - ((data.filter fun d => d.isExpanded).map
                    fun d => d.finalWidthPercent).sum) /
                  ((data.filter fun d => !d.isExpanded).map
                    fun d => d.naturalWidthPercent).sum)
              finalWidthPixels := d.naturalWidthPercent *
                ((100 - ((data.filter fun d => d.isExpanded).map
                    fun d => d.finalWidthPercent).sum) /
                  ((data.filter fun d => !d.isExpanded).map
                    fun d => d.naturalWidthPercent).sum) / 100 * cw }) =
        data.filter fun d => d.isExpanded := by
      apply List.filter_congr
      intro d _
      by_cases h : d.isExpanded <;> simp [h]
    rw [hcong]
    conv_rhs => rw [← List.map_id (data.filter fun d => d.isExpanded)]
    apply List.map_congr_left
    intro d hd
    have hx := (List.mem_filter.1 hd).2
    simp [hx]
  · rfl
  · rfl

/-- Heart of the layout-sum invariant: after the expansion and
redistribution passes, the final pixel widths sum to exactly the
container width, provided the natural widths sum to the container width
(contiguous segments), all floors are positive, and the floors sum to
at most the container width. -/
theorem redistribute_markExpanded_sum (cw : ℚ) (dat : List SegData)
    (hcw : 0 < cw)
    (hdne : dat ≠ [])
    (h0 : ∀ d ∈ dat, d.isExpanded = false)
    (hrel : ∀ d ∈ dat, d.naturalWidthPercent = d.naturalWidthPixels * (100 / cw))
    (hnat : (dat.map fun d => d.naturalWidthPixels).sum = cw)
    (hflpos : ∀ d ∈ dat, 0 < d.minWidth)
    (hflsum : (dat.map fun d => d.minWidth).sum ≤ cw) :
    ((redistribute cw (markExpanded cw dat)).map fun d => d.finalWidthPixels).sum
      = cw := by
  have hcw0 : cw ≠ 0 := ne_of_gt hcw
  have hmne := markExpanded_ne_nil cw dat hdne
  have hspec := markExpanded_spec cw dat h0
  have hrel' : ∀ e ∈ markExpanded cw dat,
      e.naturalWidthPercent = e.naturalWidthPixels * (100 / cw) := by
    intro e he
    rcases List.mem_map.1 he with ⟨d, hd, rfl⟩
    by_cases h : d.naturalWidthPixels < d.minWidth <;> simp [h, hrel d hd]
  have hflpos' : ∀ e ∈ markExpanded cw dat, 0 < e.minWidth := by
    intro e he
    rcases List.mem_map.1 he with ⟨d, hd, rfl⟩
    by_cases h : d.naturalWidthPixels < d.minWidth <;> simp [h, hflpos d hd]
  have hnat' : ((markExpanded cw dat).map fun d => d.naturalWidthPixels).sum = cw := by
    rw [markExpanded_map_natPx]; exact hnat
  have hflsum' : ((markExpanded cw dat).map fun d => d.minWidth).sum ≤ cw := by
    rw [markExpanded_map_minWidth]; exact hflsum
  simp only [redistribute]
  split_ifs with hex hnn
  · -- some segment expanded and some natural share remains: rescale
    rw [List.map_map]
    have hG : (markExpanded cw dat).map
        ((fun d => d.finalWidthPixels) ∘ fun d =>
          if d.isExpanded then d
          else
            { d with
              finalWidthPercent := d.naturalWidthPercent *
                ((100 - (((markExpanded cw dat).filter fun d => d.isExpanded).map
                    (fun d => d.finalWidthPercent)).sum) /
                  (((markExpanded cw dat).filter fun d => !d.isExpanded).map
                    (fun d => d.naturalWidthPercent)).sum)
              finalWidthPixels := d.naturalWidthPercent *
                ((100 - (((markExpanded cw dat).filter fun d => d.isExpanded).map
                    (fun d => d.finalWidthPercent)).sum) /
                  (((markExpanded cw dat).filter fun d => !d.isExpanded).map
                    (fun d => d.naturalWidthPercent)).sum) / 100 * cw }) =
        (markExpanded cw dat).map fun e =>
          if e.isExpanded then e.finalWidthPixels
          else e.naturalWidthPercent *
            ((100 - (((markExpanded cw dat).filter fun d => d.isExpanded).map
                (fun d => d.finalWidthPercent)).sum) /
              (((markExpanded cw dat).filter fun d => !d.isExpanded).map
                (fun d => d.naturalWidthPercent)).sum) / 100 * cw := by
      apply List.map_congr_left
      intro e _
      by_cases h : e.isExpanded <;> simp [h]
    rw [hG]
    rw [sum_map_split (markExpanded cw dat) (fun d => d.isExpanded)]
    have hE : (((markExpanded cw dat).filter fun d => d.isExpanded).map fun e =>
        if e.isExpanded then e.finalWidthPixels
        else e.naturalWidthPercent *
          ((100 - (((markExpanded cw dat).filter fun d => d.isExpanded).map
              (fun d => d.finalWidthPercent)).sum) /
            (((markExpanded cw dat).filter fun d => !d.isExpanded).map
              (fun d => d.naturalWidthPercent)).sum) / 100 * cw) =
        ((markExpanded cw dat).filter fun d => d.isExpanded).map fun e =>
          e.finalWidthPercent * (cw / 100) := by
      apply List.map_congr_left
      intro e he
      have hm := List.mem_filter.1 he
      obtain ⟨hfx, hfp, _⟩ := (hspec e hm.1).1 hm.2
      rw [if_pos hm.2, hfx, hfp]
      field_simp
    have hN : (((markExpanded cw dat).filter fun d => !d.isExpanded).map fun e =>
        if e.isExpanded then e.finalWidthPixels
        else e.naturalWidthPercent *
          ((100 - (((markExpanded cw dat).filter fun d => d.isExpanded).map
              (fun d => d.finalWidthPercent)).sum) /
            (((markExpanded cw dat).filter fun d => !d.isExpanded).map
              (fun d => d.naturalWidthPercent)).sum) / 100 * cw) =
        ((markExpanded cw dat).filter fun d => !d.isExpanded).map fun e =>
          e.naturalWidthPercent *
            (((100 - (((markExpanded cw dat).filter fun d => d.isExpanded).map
                (fun d => d.finalWidthPercent)).sum) /
              (((markExpanded cw dat).filter fun d => !d.isExpanded).map
                (fun d => d.naturalWidthPercent)).sum) / 100 * cw) := by
      apply List.map_congr_left
      intro e he
      have hm := List.mem_filter.1 he
      have hne : e.isExpanded = false := by simpa using hm.2
      rw [if_neg (by simp [hne])]
      ring
    rw [hE, hN, sum_map_mul_const, sum_map_mul_const]
    set SE := (((markExpanded cw dat).filter fun d => d.isExpanded).map
      (fun d => d.finalWidthPercent)).sum with hSE
    set NE := (((markExpanded cw dat).filter fun d => !d.isExpanded).map
      (fun d => d.naturalWidthPercent)).sum with hNE
    have hNE0 : NE ≠ 0 := ne_of_gt hnn
    field_simp
    ring
  · -- extra space used but no non-expanded segment: impossible under
    -- the contiguity hypothesis
    by_cases hne2 : ((markExpanded cw dat).filter fun d => !d.isExpanded) = []
    · have hall : ∀ e ∈ markExpanded cw dat, e.isExpanded = true := by
        intro e he
        cases hb : e.isExpanded
        · exfalso
          have hmem : e ∈ (markExpanded cw dat).filter fun d => !d.isExpanded :=
            List.mem_filter.2 ⟨he, by simp [hb]⟩
          rw [hne2] at hmem
          cases hmem
        · rfl
      have hlt : ∀ e ∈ markExpanded cw dat, e.naturalWidthPixels < e.minWidth :=
        fun e he => ((hspec e he).1 (hall e he)).2.2
      have hpos : 0 < ((markExpanded cw dat).map fun e =>
          e.minWidth - e.naturalWidthPixels).sum :=
        sum_map_pos _ _ hmne fun e he => sub_pos.2 (hlt e he)
      rw [sum_map_sub] at hpos
      exfalso
      linarith
    · exfalso
      apply hnn
      apply sum_map_pos _ _ hne2
      intro e he
      have hm := List.mem_filter.1 he
      have hexp : e.isExpanded = false := by simpa using hm.2
      obtain ⟨hfx, hfp, hnlt⟩ := (hspec e hm.1).2 hexp
      have h1 : 0 < e.naturalWidthPixels :=
        lt_of_lt_of_le (hflpos' e hm.1) (not_lt.1 hnlt)
      rw [hrel' e hm.1]
      have h2 : 0 < (100 : ℚ) / cw := by positivity
      exact mul_pos h1 h2
  · -- no expanded segment at all: the natural widths already sum to cw
    have hEnil : ((markExpanded cw dat).filter fun d => d.isExpanded) = [] := by
      by_contra h
      apply hex
      apply sum_map_pos _ _ h
      intro e he
      have hm := List.mem_filter.1 he
      obtain ⟨hfx, hfp, hlt⟩ := (hspec e hm.1).1 hm.2
      rw [hfp, hrel' e hm.1]
      have h2 : 0 < (100 : ℚ) / cw := by positivity
      have h3 := mul_pos (sub_pos.2 hlt) h2
      have h4 : (e.minWidth - e.naturalWidthPixels) * (100 / cw) =
          e.minWidth / cw * 100 - e.naturalWidthPixels * (100 / cw) := by ring
      linarith
    have hall : ∀ e ∈ markExpanded cw dat, e.isExpanded = false := by
      intro e he
      cases hb : e.isExpanded
      · rfl
      · exfalso
        have hmem : e ∈ (markExpanded cw dat).filter fun d => d.isExpanded :=
          List.mem_filter.2 ⟨he, by simp [hb]⟩
        rw [hEnil] at hmem
        cases hmem
    have : ((markExpanded cw dat).map fun d => d.finalWidthPixels) =
        (markExpanded cw dat).map fun d => d.naturalWidthPixels := by
      apply List.map_congr_left
      intro e he
      exact ((hspec e he).2 (hall e he)).1
    rw [this, hnat']

theorem mkSegmentData_map_natPx (ts cw : ℚ) (segments : List Seg) (mw : List ℚ)
    (hlen : segments.length ≤ mw.length) :
    (mkSegmentData ts cw segments mw).map (fun d => d.naturalWidthPixels) =
      segments.map fun s => ((s.size : ℚ) / ts) * cw := by
  simp only [mkSegmentData, List.map_map]
  calc (segments.zip mw).map
        ((fun (d : SegData) => d.naturalWidthPixels) ∘ fun p =>
          { segment := p.1
            naturalWidthPercent := ((p.1.size : ℚ) / ts) * 100
            naturalWidthPixels := ((p.1.size : ℚ) / ts) * cw
            finalWidthPercent := 0
            finalWidthPixels := 0
            isExpanded := false
            minWidth := p.2 })
      = ((segments.zip mw).map Prod.fst).map (fun s => ((s.size : ℚ) / ts) * cw) := by
        rw [List.map_map]; rfl
    _ = segments.map fun s => ((s.size : ℚ) / ts) * cw := by
        rw [List.map_fst_zip _ _ hlen]

theorem mkSegmentData_map_minWidth (ts cw : ℚ) (segments : List Seg) (mw : List ℚ)
    (hlen : mw.length ≤ segments.length) :
    (mkSegmentData ts cw segments mw).map (fun d => d.minWidth) = mw := by
  simp only [mkSegmentData, List.map_map]
  calc (segments.zip mw).map
        ((fun (d : SegData) => d.minWidth) ∘ fun p =>
          { segment := p.1
            naturalWidthPercent := ((p.1.size : ℚ) / ts) * 100
            naturalWidthPixels := ((p.1.size : ℚ) / ts) * cw
            finalWidthPercent := 0
            finalWidthPixels := 0
            isExpanded := false
            minWidth := p.2 })
      = (segments.zip mw).map Prod.snd := by rfl
    _ = mw := List.map_snd_zip _ _ hlen

theorem mkSegmentData_not_expanded (ts cw : ℚ) (segments : List Seg) (mw : List ℚ) :
    ∀ d ∈ mkSegmentData ts cw segments mw, d.isExpanded = false := by
  intro d hd
  rcases List.mem_map.1 hd with ⟨p, _, rfl⟩
  rfl

theorem mkSegmentData_ne_nil (ts cw : ℚ) (segments : List Seg) (mw : List ℚ)
    (hne : segments ≠ []) (hlen : segments.length ≤ mw.length) :
    mkSegmentData ts cw segments mw ≠ [] := by
  apply List.ne_nil_of_length_pos
  simp only [mkSegmentData, List.length_map, List.length_zip]
  have := List.length_pos.2 hne
  omega

/-- **C1** (amended).  Layout sum invariant: for a non-empty segment list
whose byte sizes tile the spanned range exactly (no gaps, no overlaps)
and a positive container width, the widths returned by
`calculateSegmentWidths` sum to exactly the container width.  As stated
in the specification — "regardless of gaps or overlaps between segment
byte ranges" — the claim is false (see the counterexample theorem): with
gaps the natural widths of non-expanded segments are kept as-is and sum
to less than the container width. -/
theorem C1_layout_sum_invariant (log10 powInv : ℚ → ℚ) (segments : List Seg)
    (cw : ℚ) (config : LayoutConfig)
    (hne : segments ≠ [])
    (hcw : 0 < cw)
    (hSB : 0 < config.STARTING_BASELINE)
    (hSBM : config.STARTING_BASELINE ≤ config.MAX_MIN_SEGMENT_WIDTH)
    (hmono : ∀ a b : ℚ, 1 ≤ a → a ≤ b → log10 a ≤ log10 b)
    (hstrict : ∀ a b : ℚ, 1 ≤ a → a < b → log10 a < log10 b)
    (hpow : ∀ x : ℚ, 0 ≤ x → x ≤ 1 → 0 ≤ powInv x ∧ powInv x ≤ 1)
    (hspan : jsMin (segments.map fun s => s.start) <
      jsMax (segments.map fun s => s.stop))
    (hcontig : (segments.map fun s => (s.size : ℚ)).sum =
      ((jsMax (segments.map fun s => s.stop) : Int) : ℚ) -
        ((jsMin (segments.map fun s => s.start) : Int) : ℚ)) :
    (layoutWidths (calculateSegmentWidths log10 powInv segments cw config)).sum
      = cw := by
  have hts : (0 : ℚ) <
      ((jsMax (segments.map fun s => s.stop) : Int) : ℚ) -
        ((jsMin (segments.map fun s => s.start) : Int) : ℚ) := by
    rw [sub_pos]
    exact_mod_cast hspan
  have htsne : ((jsMax (segments.map fun s => s.stop) : Int) : ℚ) -
      ((jsMin (segments.map fun s => s.start) : Int) : ℚ) ≠ 0 := ne_of_gt hts
  have hlen := minWidths_length log10 powInv segments
    (((jsMax (segments.map fun s => s.stop) : Int) : ℚ) -
      ((jsMin (segments.map fun s => s.start) : Int) : ℚ)) cw config
  obtain ⟨hflpos, hflsum⟩ := minWidths_pos_sum_le log10 powInv segments
    (((jsMax (segments.map fun s => s.stop) : Int) : ℚ) -
      ((jsMin (segments.map fun s => s.start) : Int) : ℚ)) cw config
    hne hcw hSB hSBM hmono hstrict hpow
  simp only [calculateSegmentWidths]
  rw [if_neg (by simpa [List.isEmpty_iff] using hne)]
  rw [calculateSegmentPositions, layoutWidths_positionsFrom]
  apply redistribute_markExpanded_sum _ _ hcw
  · exact mkSegmentData_ne_nil _ _ _ _ hne (le_of_eq hlen.symm)
  · exact mkSegmentData_not_expanded _ _ _ _
  · intro d hd
    rcases List.mem_map.1 hd with ⟨p, _, rfl⟩
    show ((p.1.size : ℚ) / _) * 100 = ((p.1.size : ℚ) / _) * cw * (100 / cw)
    have hcwne : cw ≠ 0 := ne_of_gt hcw
    field_simp
    ring
  · rw [mkSegmentData_map_natPx _ _ _ _ (le_of_eq hlen.symm)]
    have hcong : segments.map (fun s => ((s.size : ℚ) /
        (((jsMax (segments.map fun s => s.stop) : Int) : ℚ) -
          ((jsMin (segments.map fun s => s.start) : Int) : ℚ))) * cw) =
        segments.map fun s => (s.size : ℚ) *
          (cw / (((jsMax (segments.map fun s => s.stop) : Int) : ℚ) -
            ((jsMin (segments.map fun s => s.start) : Int) : ℚ))) := by
      apply List.map_congr_left
      intro s _
      ring
    rw [hcong, sum_map_mul_const, hcontig, mul_div_cancel₀ _ htsne]
  · intro d hd
    rcases List.mem_map.1 hd with ⟨p, hp, rfl⟩
    have : p.2 ∈ calculateLogarithmicMinWidths log10 powInv segments
        (((jsMax (segments.map fun s => s.stop) : Int) : ℚ) -
          ((jsMin (segments.map fun s => s.start) : Int) : ℚ)) cw config :=
      (List.of_mem_zip hp).2
    exact hflpos _ this
  · rw [mkSegmentData_map_minWidth _ _ _ _ (le_of_eq hlen)]
    exact hflsum

/-- **C1** witness: two contiguous 4-byte segments in a 100px container
get widths summing to exactly 100. -/
theorem C1_layout_sum_invariant_witness :
    (layoutWidths (calculateSegmentWidths id id [seg0 "a" 0 4, seg0 "b" 4 8]
      100 defaultLayout)).sum = 100 :=
  C1_layout_sum_invariant id id [seg0 "a" 0 4, seg0 "b" 4 8] 100 defaultLayout
    (by decide) (by norm_num) (by norm_num [defaultLayout])
    (by norm_num [defaultLayout]) (fun a b _ h => h) (fun a b _ h => h)
    (fun x h0 h1 => ⟨h0, h1⟩) (by decide)
    (by norm_num [seg0, Seg.size, jsMin, jsMax])

/-- **C1** counterexample: the claim as stated ("regardless of gaps or
overlaps") is false.  Two unit segments `[0,1)` and `[2,3)` leave a
one-byte gap; neither is expanded under the default configuration, the
natural widths are kept, and the total is `2000/3 ≠ 1000`.  (No
logarithm is evaluated on this input: the clamped sizes are equal, so
the floors are the adjusted baseline and the `id` instantiations of
`log10`/`powInv` are immaterial — the rational model coincides with the
source's float computation here.) -/
theorem C1_gap_counterexample :
    (layoutWidths (calculateSegmentWidths id id [seg0 "a" 0 1, seg0 "b" 2 3]
      1000 defaultLayout)).sum ≠ 1000 := by
  norm_num [calculateSegmentWidths, calculateLogarithmicMinWidths, mkSegmentData,
    markExpanded, redistribute, calculateSegmentPositions, positionsFrom,
    layoutWidths, jsMin, jsMax, seg0, Seg.size, defaultLayout]

/-- **C5** (amended).  A level with exactly one segment of positive byte
size always receives the full container width — for every container
width and every floor configuration (the single-segment branch of the
floor computation never evaluates a logarithm, and its floor never
exceeds the container width).  The zero-size case claimed by the
specification is false: see the counterexample theorem (the source
divides `0 / 0`, producing `NaN` geometry rather than the container
width). -/
theorem C5_single_segment (log10 powInv : ℚ → ℚ) (s : Seg) (cw : ℚ)
    (config : LayoutConfig) (hpos : 0 < s.stop - s.start) :
    layoutWidths (calculateSegmentWidths log10 powInv [s] cw config) = [cw] := by
  have hsizeQ : (s.size : ℚ) = (s.stop : ℚ) - (s.start : ℚ) := by
    have : s.size = s.stop - s.start := by
      simp only [Seg.size]
      omega
    rw [this]
    push_cast
    ring
  have htQ : (0 : ℚ) < (s.stop : ℚ) - (s.start : ℚ) := by
    have : (s.start : ℚ) < (s.stop : ℚ) := by exact_mod_cast (by omega : s.start < s.stop)
    linarith
  have htne : (s.stop : ℚ) - (s.start : ℚ) ≠ 0 := ne_of_gt htQ
  simp only [calculateSegmentWidths]
  rw [if_neg (by simp)]
  simp only [List.map_cons, List.map_nil, jsMin, jsMax, List.foldl_nil]
  have hMW : ∃ m0, calculateLogarithmicMinWidths log10 powInv [s]
      (((s.stop : Int) : ℚ) - ((s.start : Int) : ℚ)) cw config = [m0] ∧ m0 ≤ cw := by
    simp only [calculateLogarithmicMinWidths]
    split_ifs with h1 h2
    · exact ⟨cw / 1, by simp, by simp⟩
    · refine ⟨min config.STARTING_BASELINE (cw / 1), by simp, ?_⟩
      calc min config.STARTING_BASELINE (cw / 1) ≤ cw / 1 := min_le_right _ _
        _ = cw := div_one cw
    all_goals
      exact absurd (by simp [jsMin, jsMax]) h2
  obtain ⟨m0, hmw, hle⟩ := hMW
  rw [hmw]
  have hnat : ((s.size : ℚ) / (((s.stop : Int) : ℚ) - ((s.start : Int) : ℚ))) * cw
      = cw := by
    rw [hsizeQ, div_self htne, one_mul]
  simp only [mkSegmentData, List.zip_cons_cons, List.zip_nil_right, List.map_cons,
    List.map_nil]
  simp only [markExpanded, List.map_cons, List.map_nil, hnat]
  rw [if_neg (not_lt.2 hle)]
  simp only [redistribute, List.filter_cons, List.filter_nil]
  norm_num
  simp [calculateSegmentPositions, positionsFrom, layoutWidths]

/-- **C5** witness: a single 10-byte segment in a 500px container takes
the whole width. -/
theorem C5_single_segment_witness :
    layoutWidths (calculateSegmentWidths id id [seg0 "s" 0 10] 500 defaultLayout)
      = [500] :=
  C5_single_segment id id (seg0 "s" 0 10) 500 defaultLayout (by decide)

/-- **C5** counterexample: the claim's "including a zero-size segment"
is false.  For a single segment with `start = end` the source computes
`0 / 0` (`NaN` in JS), and the resulting width is not the container
width.  (In the rational model the division yields `0` and the segment
is pinned to its 5px floor; in the source the width is `NaN`; under
either semantics the width differs from `500`.) -/
theorem C5_zero_size_counterexample :
    layoutWidths (calculateSegmentWidths id id [seg0 "s" 5 5] 500 defaultLayout)
      ≠ [500] := by
  norm_num [calculateSegmentWidths, calculateLogarithmicMinWidths, mkSegmentData,
    markExpanded, redistribute, calculateSegmentPositions, positionsFrom,
    layoutWidths, jsMin, jsMax, seg0, Seg.size, defaultLayout]

/-- Elements of `redistribute` keep their expansion status, their
natural width, their floor, and — when expanded — their final width. -/
theorem redistribute_spec (cw : ℚ) (m : List SegData)
    (h : ∀ e ∈ m,
      (e.isExpanded = true → e.finalWidthPixels = e.minWidth ∧
        e.naturalWidthPixels < e.minWidth) ∧
      (e.isExpanded = false → ¬e.naturalWidthPixels < e.minWidth)) :
    ∀ d ∈ redistribute cw m,
      (d.isExpanded = true → d.finalWidthPixels = d.minWidth ∧
        d.naturalWidthPixels < d.minWidth) ∧
      (d.isExpanded = false → ¬d.naturalWidthPixels < d.minWidth) := by
  simp only [redistribute]
  split_ifs with h1 h2
  · intro d hd
    rcases List.mem_map.1 hd with ⟨e, he, rfl⟩
    by_cases hb : e.isExpanded
    · simp only [if_pos hb]
      exact h e he
    · simp only [if_neg hb]
      constructor
      · intro habs
        exfalso
        rw [show ({ e with
            finalWidthPercent := e.naturalWidthPercent *
              ((100 - ((m.filter fun d => d.isExpanded).map
                  (fun d => d.finalWidthPercent)).sum) /
                ((m.filter fun d => !d.isExpanded).map
                  (fun d => d.naturalWidthPercent)).sum)
            finalWidthPixels := e.naturalWidthPercent *
              ((100 - ((m.filter fun d => d.isExpanded).map
                  (fun d => d.finalWidthPercent)).sum) /
                ((m.filter fun d => !d.isExpanded).map
                  (fun d => d.naturalWidthPercent)).sum) / 100 * cw } : SegData).isExpanded
          = e.isExpanded from rfl] at habs
        exact hb habs
      · intro _
        exact (h e he).2 (by simpa using hb)
  · exact h
  · exact h

/-- Elements produced by `markExpanded` satisfy the expansion contract
needed by `redistribute_spec` (assuming the input records are unmarked,
as `mkSegmentData` produces them). -/
theorem markExpanded_contract (cw : ℚ) (dat : List SegData)
    (h0 : ∀ d ∈ dat, d.isExpanded = false) :
    ∀ e ∈ markExpanded cw dat,
      (e.isExpanded = true → e.finalWidthPixels = e.minWidth ∧
        e.naturalWidthPixels < e.minWidth) ∧
      (e.isExpanded = false → ¬e.naturalWidthPixels < e.minWidth) := by
  intro e he
  have := markExpanded_spec cw dat h0 e he
  exact ⟨fun hb => ⟨(this.1 hb).1, (this.1 hb).2.2⟩, fun hb => (this.2 hb).2.2⟩

/-- **C6**.  Minimum-width guarantee: in any computed layout, a segment
is marked `isExpanded` exactly when its natural proportional width is
strictly below its computed floor (the floor list having already been
scaled down globally inside `calculateLogarithmicMinWidths` when its
sum exceeded the container width), and every expanded segment's
assigned width equals exactly that floor; moreover the redistribution
pass returns the expanded entries unchanged, i.e. it only modifies
non-expanded segments.  The span hypothesis excludes the all-degenerate
level on which the source's float arithmetic produces `NaN` rather than
rational values. -/
theorem C6_minimum_width_guarantee (log10 powInv : ℚ → ℚ) (segments : List Seg)
    (cw : ℚ) (config : LayoutConfig)
    (_hspan : jsMin (segments.map fun s => s.start) <
      jsMax (segments.map fun s => s.stop)) :
    (∀ lay ∈ calculateSegmentWidths log10 powInv segments cw config,
        (lay.naturalWidth < lay.minWidth ↔ lay.isExpanded = true) ∧
        (lay.isExpanded = true → lay.width = lay.minWidth)) ∧
      ∀ data : List SegData,
        (redistribute cw data).filter (fun d => d.isExpanded) =
          data.filter fun d => d.isExpanded := by
  constructor
  · intro lay hlay
    simp only [calculateSegmentWidths] at hlay
    split_ifs at hlay with hE
    · cases hlay
    · rw [calculateSegmentPositions] at hlay
      obtain ⟨d, hd, hw, hxp, hnatw, hminw⟩ := mem_positionsFrom _ _ _ _ hlay
      have hcontract := redistribute_spec cw _
        (markExpanded_contract cw _ (mkSegmentData_not_expanded _ _ _ _)) d hd
      constructor
      · rw [hnatw, hminw, hxp]
        constructor
        · intro hlt
          cases hb : d.isExpanded
          · exact absurd hlt (hcontract.2 hb)
          · rfl
        · intro hb
          exact (hcontract.1 hb).2
      · intro hb
        rw [hxp] at hb
        rw [hw, hminw]
        exact (hcontract.1 hb).1
  · intro data
    exact redistribute_filter_expanded cw data

/-- **C6** witness: a level with four 1-byte segments and one large
segment in a 500px container; the tiny segments fall below their 5px
floors and are expanded. -/
theorem C6_minimum_width_guarantee_witness :
    (∀ lay ∈ calculateSegmentWidths id id
        [seg0 "a" 0 1, seg0 "b" 1 2, seg0 "c" 2 1002] 500 defaultLayout,
        (lay.naturalWidth < lay.minWidth ↔ lay.isExpanded = true) ∧
        (lay.isExpanded = true → lay.width = lay.minWidth)) ∧
      ∀ data : List SegData,
        (redistribute 500 data).filter (fun d => d.isExpanded) =
          data.filter fun d => d.isExpanded :=
  C6_minimum_width_guarantee id id
    [seg0 "a" 0 1, seg0 "b" 1 2, seg0 "c" 2 1002] 500 defaultLayout (by decide)

/-! ## Input data model (the §6 JSON contract consumed by
`SegmentHierarchyBuilder`, `src/unnamed/part_001`)

Optional JSON fields are `Option`; fields that the input contract
requires (`filesize`, a chunk's `start_offset`/`total_byte_size`, a
page's `start_offset`) are plain `Int`.  Fields never read by the
builder (statistics, codecs, display payloads) are omitted. -/

/-- JS `a || b` on an optional numeric field with default `b`
(`undefined` and `0` are falsy). -/
def jsOr (o : Option Int) (d : Int) : Int :=
  match o with
  | some v => if v = 0 then d else v
  | none => d

/-- JS truthiness of an optional numeric field. -/
def jsTruthy (o : Option Int) : Bool :=
  match o with
  | some v => v != 0
  | none => false

structure PageData where
  start_offset : Int
  header_size : Option Int
  compressed_page_size : Option Int
deriving Repr, DecidableEq

structure ColumnChunk where
  path_in_schema : String
  start_offset : Int
  total_byte_size : Int
  dictionary_page : Option PageData
  data_pages : Option (List PageData)
  index_pages : Option (List PageData)
deriving Repr, DecidableEq

/-- A node of `metadata.metadata.schema_root`; `children` is the
insertion-ordered JS object of child nodes. -/
inductive SchemaNode : Type where
  | node (element_type : Option String) (byte_length : Option Int)
      (start_offset : Option Int)
      (children : Option (List (String × SchemaNode))) : SchemaNode
deriving Repr

def SchemaNode.element_type : SchemaNode → Option String
  | .node t _ _ _ => t

def SchemaNode.byte_length : SchemaNode → Option Int
  | .node _ b _ _ => b

def SchemaNode.start_offset : SchemaNode → Option Int
  | .node _ _ o _ => o

def SchemaNode.children : SchemaNode → Option (List (String × SchemaNode))
  | .node _ _ _ c => c

/-- One value of a row group's `column_chunks` object. -/
structure ColumnChunkMeta where
  total_compressed_size : Option Int
  total_uncompressed_size : Option Int
  column_index_offset : Option Int
  column_index_length : Option Int
deriving Repr, DecidableEq

structure RowGroupMeta where
  byte_length : Option Int
  column_chunks : Option (List (String × ColumnChunkMeta))
deriving Repr, DecidableEq

/-- A `key_value_metadata` entry (its display `value` is part of the
omitted opaque payload). -/
structure KVEntry where
  key : String
  byte_length : Option Int
  start_offset : Option Int
deriving Repr, DecidableEq

structure MetadataInner where
  schema_root : Option SchemaNode
  row_groups : Option (List RowGroupMeta)
  key_value_metadata : Option (List KVEntry)
deriving Repr

structure MetadataOuter where
  total_byte_size : Option Int
  start_offset : Option Int
  metadata : Option MetadataInner
deriving Repr

structure FileData where
  filesize : Int
  column_chunks : Option (List ColumnChunk)
  metadata : Option MetadataOuter
deriving Repr

/-- `ParquetConstants.FILE_STRUCTURE.MAGIC_SIZE` (`src/unnamed/part_005`). -/
def MAGIC_SIZE : Int := 4

/-- `ParquetConstants.FILE_STRUCTURE.FOOTER_SIZE`. -/
def FOOTER_SIZE : Int := 8

/-- `fileData.metadata?.metadata`. -/
def innerMetadata (fd : FileData) : Option MetadataInner :=
  fd.metadata.bind fun m => m.metadata

/-- Stable insertion step: a (later) element is placed after every
existing element with a strictly smaller start and before the first
element whose start is not smaller, preserving the original order of
equal keys. -/
def insertByStart (x : Seg) : List Seg → List Seg
  | [] => [x]
  | h :: t => if h.start < x.start then h :: insertByStart x t else x :: h :: t

/-- Stable ascending sort by `start` — JS
`sort((a, b) => a.start - b.start)` (`Array.prototype.sort` is stable;
stable insertion sort realizes the same permutation). -/
def sortByStart : List Seg → List Seg
  | [] => []
  | x :: rest => insertByStart x (sortByStart rest)

/-! ## `SegmentHierarchyBuilder` (`src/unnamed/part_001`) -/

/-- `SegmentHierarchyBuilder._getChunksForRowGroup`: the flat chunk list
is split into `ceil(totalChunks / numRowGroups)`-sized contiguous
blocks.  (`slice(start, min(start + n, len))` equals `drop`/`take`,
which clamp the same way.) -/
def getChunksForRowGroup (fd : FileData) (rowGroupIndex : Nat) : List ColumnChunk :=
  let rgLen : Nat :=
    (((innerMetadata fd).bind fun m => m.row_groups).map List.length).getD 0
  let numRowGroups := if rgLen = 0 then 1 else rgLen
  let ccLen : Nat := (fd.column_chunks.map List.length).getD 0
  let chunksPerRowGroup := (ccLen + numRowGroups - 1) / numRowGroups
  ((fd.column_chunks.getD []).drop (rowGroupIndex * chunksPerRowGroup)).take
    chunksPerRowGroup

/-- The `metadataSize` computation at the top of `buildOverviewSegments`:
`fileData.metadata?.total_byte_size || (fileData.metadata?.metadata ?
JSON.stringify(fileData.metadata.metadata).length : 1024)`.  `jsonLen`
stands for the stringify length (see the file header). -/
def overviewMetadataSize (jsonLen : Int) (fd : FileData) : Int :=
  match fd.metadata with
  | none => 1024
  | some m =>
    jsOr m.total_byte_size (match m.metadata with
      | some _ => jsonLen
      | none => 1024)

/-- `SegmentHierarchyBuilder.buildOverviewSegments`. -/
def buildOverviewSegments (jsonLen : Int) (fd : FileData) :
    Except String (List Seg) := do
  let metadataSize := overviewMetadataSize jsonLen fd
  let fallback : Int × Int :=
    (MAGIC_SIZE, fd.filesize - metadataSize - FOOTER_SIZE)
  let bounds : Int × Int :=
    match fd.column_chunks with
    | some chunks =>
      if chunks.length > 0 then
        (jsMin (chunks.map fun c => c.start_offset),
         jsMax (chunks.map fun c => c.start_offset + c.total_byte_size))
      else fallback
    | none => fallback
  let s1 ← mkSeg "header_magic" "MAGIC" 0 MAGIC_SIZE none none none none
  let s2 ← mkSeg "rowgroups" "ROWGROUPS" bounds.1 bounds.2 none none none none
  let s3 ← mkSeg "metadata" "METADATA" bounds.2 (fd.filesize - FOOTER_SIZE)
    none none none none
  let s4 ← mkSeg "footer" "FOOTER" (fd.filesize - FOOTER_SIZE)
    (fd.filesize - MAGIC_SIZE) none none none none
  let s5 ← mkSeg "footer_magic" "MAGIC" (fd.filesize - MAGIC_SIZE) fd.filesize
    none none none none
  pure [s1, s2, s3, s4, s5]

/-- The indexed `forEach` of `buildRowGroupSegments`: row groups whose
chunk block is empty are skipped; the others span the min/max byte
range of their chunks. -/
def rowGroupSegsFrom (fd : FileData) (index : Nat) :
    List RowGroupMeta → Except String (List Seg)
  | [] => .ok []
  | _ :: rest => do
    let rowGroupChunks := getChunksForRowGroup fd index
    let here ←
      if rowGroupChunks.length = 0 then pure []
      else do
        let s ← mkSeg ("rowgroup_" ++ toString index) ("RG" ++ toString index)
          (jsMin (rowGroupChunks.map fun c => c.start_offset))
          (jsMax (rowGroupChunks.map fun c => c.start_offset + c.total_byte_size))
          (some index) none none none
        pure [s]
    let tail ← rowGroupSegsFrom fd (index + 1) rest
    pure (here ++ tail)

/-- `SegmentHierarchyBuilder.buildRowGroupSegments`. -/
def buildRowGroupSegments (fd : FileData) : Except String (List Seg) :=
  match (innerMetadata fd).bind fun m => m.row_groups with
  | none => .ok []
  | some rgs => rowGroupSegsFrom fd 0 rgs

/-- The indexed `forEach` of `buildColumnChunkSegments`.  (`|| 0` on the
required numeric fields `total_byte_size`/`start_offset` maps `0` to
`0`, hence is the identity and is not repeated here.  The
`_findColumnMetadata` lookup only fills the omitted `logicalMetadata`
payload.) -/
def chunkSegsFrom (rowGroupIndex chunkIndex : Nat) :
    List ColumnChunk → Except String (List Seg)
  | [] => .ok []
  | chunk :: rest => do
    let s ← mkSeg
      ("chunk_" ++ toString rowGroupIndex ++ "_" ++ toString chunkIndex)
      chunk.path_in_schema chunk.start_offset
      (chunk.start_offset + chunk.total_byte_size)
      (some rowGroupIndex) (some chunkIndex) none (some chunk.path_in_schema)
    let tail ← chunkSegsFrom rowGroupIndex (chunkIndex + 1) rest
    pure (s :: tail)

/-- `SegmentHierarchyBuilder.buildColumnChunkSegments`. -/
def buildColumnChunkSegments (fd : FileData) (rowGroupIndex : Nat) :
    Except String (List Seg) := do
  let segments ← chunkSegsFrom rowGroupIndex 0 (getChunksForRowGroup fd rowGroupIndex)
  pure (sortByStart segments)

/-- Data/index page loop of `buildPageSegments`; `idStem`/`nameStem`
distinguish the `page_data_`/`DATA` and `page_index_`/`IDX` families. -/
def pageSegsFrom (idStem nameStem : String) (rowGroupIndex chunkIndex pageIndex : Nat) :
    List PageData → Except String (List Seg)
  | [] => .ok []
  | page :: rest => do
    let totalPageSize := page.header_size.getD 0 + page.compressed_page_size.getD 0
    let s ← mkSeg (idStem ++ toString pageIndex)
      (nameStem ++ toString pageIndex) page.start_offset
      (page.start_offset + totalPageSize)
      (some rowGroupIndex) (some chunkIndex) (some pageIndex) none
    let tail ← pageSegsFrom idStem nameStem rowGroupIndex chunkIndex (pageIndex + 1) rest
    pure (s :: tail)

/-- `SegmentHierarchyBuilder.buildPageSegments`. -/
def buildPageSegments (fd : FileData) (rowGroupIndex chunkIndex : Nat) :
    Except String (List Seg) :=
  match (getChunksForRowGroup fd rowGroupIndex)[chunkIndex]? with
  | none => .ok []
  | some chunk => do
    let dictPart ←
      match chunk.dictionary_page with
      | none => pure []
      | some dictPage => do
        let totalPageSize :=
          dictPage.header_size.getD 0 + dictPage.compressed_page_size.getD 0
        let s ← mkSeg
          ("page_dict_" ++ toString rowGroupIndex ++ "_" ++ toString chunkIndex)
          "DICT" dictPage.start_offset (dictPage.start_offset + totalPageSize)
          (some rowGroupIndex) (some chunkIndex) (some 0) none
        pure [s]
    let dataPart ← pageSegsFrom
      ("page_data_" ++ toString rowGroupIndex ++ "_" ++ toString chunkIndex ++ "_")
      "DATA" rowGroupIndex chunkIndex 0 (chunk.data_pages.getD [])
    let indexPart ← pageSegsFrom
      ("page_index_" ++ toString rowGroupIndex ++ "_" ++ toString chunkIndex ++ "_")
      "IDX" rowGroupIndex chunkIndex 0 (chunk.index_pages.getD [])
    pure (dictPart ++ dataPart ++ indexPart)

mutual

/-- `SegmentHierarchyBuilder._calculateSchemaLength`: the node's own
`byte_length` plus, recursively, the lengths of all children. -/
def calculateSchemaLength : SchemaNode → Int
  | .node _ bl _ none => bl.getD 0
  | .node _ bl _ (some cs) => bl.getD 0 + schemaChildrenLength cs

/-- The `Object.values(children).forEach` accumulation inside
`_calculateSchemaLength`. -/
def schemaChildrenLength : List (String × SchemaNode) → Int
  | [] => 0
  | (_, c) :: rest => calculateSchemaLength c + schemaChildrenLength rest

end

/-- The entry loop of `buildSchemaElementSegments` (the unused `index`
callback parameter of the source's `forEach` is not modelled): a group
child spans its recursive schema length, a leaf child its `byte_length`
with a 50-byte fallback (`|| 50`, so an explicit `0` also falls back). -/
def schemaElemSegs (parentId : String) :
    List (String × SchemaNode) → Except String (List Seg)
  | [] => .ok []
  | (name, child) :: rest => do
    let childStart := child.start_offset.getD 0
    let childLength :=
      if child.element_type = some "group" then calculateSchemaLength child
      else jsOr child.byte_length 50
    let s ← mkSeg (parentId ++ "_" ++ name) name childStart
      (childStart + childLength) none none none none
    let tail ← schemaElemSegs parentId rest
    pure (s :: tail)

/-- `SegmentHierarchyBuilder.buildSchemaElementSegments`. -/
def buildSchemaElementSegments (schemaGroup : SchemaNode) (parentId : String) :
    Except String (List Seg) :=
  match schemaGroup.children with
  | none => .ok []
  | some cs => do
    let segments ← schemaElemSegs parentId cs
    pure (sortByStart segments)

/-- The `child.element_type === 'group' && child.children` truthiness
check of `_buildAllNestedSchemaElements` (a present-but-empty children
object is truthy). -/
def isGroupWithChildren (n : SchemaNode) : Bool :=
  n.element_type = some "group" && n.children.isSome

mutual

/-- `SegmentHierarchyBuilder._buildAllNestedSchemaElements`: depth-first
preorder over the child entries, emitting one cache bucket per nested
group. -/
def buildNestedSchemaElements :
    List (String × SchemaNode) → String → Except String (List (String × List Seg))
  | [], _ => .ok []
  | (name, child) :: rest, parentId => do
    let childId := parentId ++ "_" ++ name
    let here ←
      if isGroupWithChildren child then do
        let segs ← buildSchemaElementSegments child childId
        let sub ← buildNestedForNode child childId
        pure ((childId, segs) :: sub)
      else pure []
    let tail ← buildNestedSchemaElements rest parentId
    pure (here ++ tail)

/-- Recursion into one node's children (no-op when the node has none). -/
def buildNestedForNode : SchemaNode → String → Except String (List (String × List Seg))
  | .node _ _ _ none, _ => .ok []
  | .node _ _ _ (some cs), parentId => buildNestedSchemaElements cs parentId

end

/-- `SegmentHierarchyBuilder.buildAllSchemaElementSegments`: the root
bucket keyed `schema_root` followed by all nested group buckets. -/
def buildAllSchemaElementSegments (fd : FileData) :
    Except String (List (String × List Seg)) :=
  match (innerMetadata fd).bind fun m => m.schema_root with
  | none => .ok []
  | some root => do
    let rootSegs ← buildSchemaElementSegments root "schema_root"
    let nested ← buildNestedForNode root "schema_root"
    pure (("schema_root", rootSegs) :: nested)

/-- One entry of `_extractColumnIndicesInfo`'s result. -/
structure IndexInfo where
  path : String
  row_group : Nat
  itype : String
  offset : Int
  size : Int
deriving Repr, DecidableEq

/-- `SegmentHierarchyBuilder._extractColumnIndicesInfo`: for every
column-chunk metadata record with truthy `column_index_offset` and
`column_index_length`, a column-index entry followed by an estimated
offset-index entry.  The source estimates the offset-index size as
`Math.max(50, Math.floor(length * 0.3))` in floats; the model uses the
rational `max 50 (3·length / 10)` (floor division) — no claim below
depends on the estimate's exact value. -/
def extractColumnIndicesInfo (fd : FileData) : List IndexInfo :=
  match (innerMetadata fd).bind fun m => m.row_groups with
  | none => []
  | some rgs =>
    rgs.enum.flatMap fun p =>
      match p.2.column_chunks with
      | none => []
      | some ccs =>
        ccs.flatMap fun q =>
          if jsTruthy q.2.column_index_offset && jsTruthy q.2.column_index_length then
            [{ path := q.1, row_group := p.1, itype := "column_index"
               offset := q.2.column_index_offset.getD 0
               size := q.2.column_index_length.getD 0 },
             { path := q.1, row_group := p.1, itype := "offset_index"
               offset := q.2.column_index_offset.getD 0 +
                 q.2.column_index_length.getD 0
               size := max 50 (3 * q.2.column_index_length.getD 0 / 10) }]
          else []

/-- `SegmentHierarchyBuilder.buildMetadataStructureSegments`. -/
def buildMetadataStructureSegments (fd : FileData) : Except String (List Seg) := do
  match innerMetadata fd with
  | none => pure []
  | some meta => do
    let mut segments : List Seg := []
    let mut currentOffset : Int := jsOr (fd.metadata.bind fun m => m.start_offset) 0
    match meta.schema_root with
    | some root =>
      let schemaStart := jsOr root.start_offset currentOffset
      let schemaLength := calculateSchemaLength root
      let s ← mkSeg "schema_root" "SCHEMA" schemaStart (schemaStart + schemaLength)
        none none none none
      segments := segments ++ [s]
      currentOffset := schemaStart + schemaLength
    | none => pure ()
    match meta.row_groups with
    | some rgs =>
      if rgs.length > 0 then
        let totalRowGroupMetadataSize := (rgs.map fun rg => jsOr rg.byte_length 200).sum
        let s ← mkSeg "row_groups_metadata" "ROW GROUP METADATA" currentOffset
          (currentOffset + totalRowGroupMetadataSize) none none none none
        segments := segments ++ [s]
        currentOffset := currentOffset + totalRowGroupMetadataSize
    | none => pure ()
    let columnIndicesInfo := extractColumnIndicesInfo fd
    if columnIndicesInfo.length > 0 then
      let totalIndicesSize := (columnIndicesInfo.map fun info => info.size).sum
      let s ← mkSeg "column_indices" "INDICES" currentOffset
        (currentOffset + totalIndicesSize) none none none none
      segments := segments ++ [s]
      currentOffset := currentOffset + totalIndicesSize
    match meta.key_value_metadata with
    | some kvs =>
      if kvs.length > 0 then
        let totalKvSize := (kvs.map fun e => e.byte_length.getD 0).sum
        let s ← mkSeg "key_value_metadata" "KEY-VALUE METADATA" currentOffset
          (currentOffset + totalKvSize) none none none none
        segments := segments ++ [s]
    | none => pure ()
    pure (sortByStart segments)

/-- The indexed, offset-accumulating `forEach` of
`buildRowGroupMetadataSegments`. -/
def rowGroupMetaSegsFrom (offset : Int) (index : Nat) :
    List RowGroupMeta → Except String (List Seg)
  | [] => .ok []
  | rg :: rest => do
    let rgSize := jsOr rg.byte_length 200
    let s ← mkSeg ("rowgroup_meta_" ++ toString index)
      ("ROW GROUP " ++ toString index) offset (offset + rgSize)
      (some index) none none none
    let tail ← rowGroupMetaSegsFrom (offset + rgSize) (index + 1) rest
    pure (s :: tail)

/-- `SegmentHierarchyBuilder.buildRowGroupMetadataSegments`: one bucket
keyed `row_groups_metadata`, offsets starting 600 bytes past the
metadata block ("after schema"). -/
def buildRowGroupMetadataSegments (fd : FileData) :
    Except String (List (String × List Seg)) :=
  match (innerMetadata fd).bind fun m => m.row_groups with
  | none => .ok []
  | some rgs => do
    let segs ← rowGroupMetaSegsFrom
      (jsOr (fd.metadata.bind fun m => m.start_offset) 0 + 600) 0 rgs
    pure [("row_groups_metadata", segs)]

/-- The segment loop of `buildColumnIndexSegments`. -/
def indexSegsOf : List IndexInfo → Except String (List Seg)
  | [] => .ok []
  | info :: rest => do
    let s ← mkSeg (info.itype ++ "_" ++ toString info.row_group ++ "_" ++ info.path)
      (info.path ++ " (RG" ++ toString info.row_group ++ ") " ++
        String.mk (info.itype.toList.map Char.toUpper))
      info.offset (info.offset + info.size) none none none none
    let tail ← indexSegsOf rest
    pure (s :: tail)

/-- `SegmentHierarchyBuilder.buildColumnIndexSegments`: one bucket keyed
`column_indices`, sorted by start. -/
def buildColumnIndexSegments (fd : FileData) :
    Except String (List (String × List Seg)) := do
  let indicesInfo := extractColumnIndicesInfo fd
  if indicesInfo.length = 0 then pure []
  else do
    let segments ← indexSegsOf indicesInfo
    pure [("column_indices", sortByStart segments)]

/-- JS `key.replace(/[^a-zA-Z0-9]/g, '_')`. -/
def sanitizeKey (s : String) : String :=
  String.mk (s.toList.map fun c => if c.isAlpha || c.isDigit then c else '_')

/-- The indexed `forEach` of `buildKeyValueMetadataSegments`. -/
def kvSegsFrom (index : Nat) : List KVEntry → Except String (List Seg)
  | [] => .ok []
  | entry :: rest => do
    let s ← mkSeg ("kv_" ++ toString index ++ "_" ++ sanitizeKey entry.key)
      entry.key (entry.start_offset.getD 0)
      (entry.start_offset.getD 0 + entry.byte_length.getD 0) none none none none
    let tail ← kvSegsFrom (index + 1) rest
    pure (s :: tail)

/-- `SegmentHierarchyBuilder.buildKeyValueMetadataSegments`: one bucket
keyed `key_value_metadata`, sorted by start.  (`Array.isArray` holds by
typing in the model.) -/
def buildKeyValueMetadataSegments (fd : FileData) :
    Except String (List (String × List Seg)) :=
  match (innerMetadata fd).bind fun m => m.key_value_metadata with
  | none => .ok []
  | some entries => do
    let segments ← kvSegsFrom 0 entries
    pure [("key_value_metadata", sortByStart segments)]

/-- The relative-offset loop of `buildColumnChunkMetadataSegments`
(`total_compressed_size || total_uncompressed_size || 100`). -/
def columnChunkMetaSegsFrom (rgIndex : Nat) (offset : Int) (chunkIndex : Nat) :
    List (String × ColumnChunkMeta) → Except String (List Seg)
  | [] => .ok []
  | (columnPath, columnMeta) :: rest => do
    let chunkSize := jsOr columnMeta.total_compressed_size
      (jsOr columnMeta.total_uncompressed_size 100)
    let s ← mkSeg ("column_meta_" ++ toString rgIndex ++ "_" ++ toString chunkIndex)
      columnPath offset (offset + chunkSize)
      (some rgIndex) (some chunkIndex) none (some columnPath)
    let tail ← columnChunkMetaSegsFrom rgIndex (offset + chunkSize) (chunkIndex + 1) rest
    pure (s :: tail)

/-- The per-row-group loop of `buildColumnChunkMetadataSegments`: every
row group gets a bucket keyed `rowgroup_meta_<i>` (empty when it has no
`column_chunks`). -/
def columnChunkMetaBuckets (rgIndex : Nat) :
    List RowGroupMeta → Except String (List (String × List Seg))
  | [] => .ok []
  | rg :: rest => do
    let segments ←
      match rg.column_chunks with
      | none => pure []
      | some ccs => columnChunkMetaSegsFrom rgIndex 0 0 ccs
    let tail ← columnChunkMetaBuckets (rgIndex + 1) rest
    pure (("rowgroup_meta_" ++ toString rgIndex, segments) :: tail)

/-- `SegmentHierarchyBuilder.buildColumnChunkMetadataSegments`. -/
def buildColumnChunkMetadataSegments (fd : FileData) :
    Except String (List (String × List Seg)) :=
  match (innerMetadata fd).bind fun m => m.row_groups with
  | none => .ok []
  | some rgs => columnChunkMetaBuckets 0 rgs

/-- The cache assembled by `buildAll` (JS objects as insertion-ordered
association lists; the `columnchunks` keys are the numeric row-group
indices). -/
structure HierarchyCache where
  overview : List Seg
  rowgroups : List Seg
  columnchunks : List (Nat × List Seg)
  pages : List (String × List Seg)
  metadatastructure : List Seg
  schemaelements : List (String × List Seg)
  rowgroupelements : List (String × List Seg)
  indexelements : List (String × List Seg)
  keyvaluemetadata : List (String × List Seg)
  columnchunkmetadata : List (String × List Seg)
deriving Repr, DecidableEq

/-- Decidable equality of build results, used to evaluate the model on
concrete inputs. -/
instance [DecidableEq ε] [DecidableEq α] : DecidableEq (Except ε α) := fun a b =>
  match a, b with
  | .error e1, .error e2 =>
    if h : e1 = e2 then .isTrue (by rw [h])
    else .isFalse (by intro hh; cases hh; exact h rfl)
  | .error _, .ok _ => .isFalse (by intro hh; cases hh)
  | .ok _, .error _ => .isFalse (by intro hh; cases hh)
  | .ok a1, .ok a2 =>
    if h : a1 = a2 then .isTrue (by rw [h])
    else .isFalse (by intro hh; cases hh; exact h rfl)

/-- The `columnchunks` loop of `buildAll` over the row-group indices. -/
def chunkBuckets (fd : FileData) : List Nat → Except String (List (Nat × List Seg))
  | [] => .ok []
  | i :: rest => do
    let segs ← buildColumnChunkSegments fd i
    let tail ← chunkBuckets fd rest
    pure ((i, segs) :: tail)

/-- The `pages` loop of `buildAll` over `(rowGroupIndex, chunkIndex)`
keys drawn from the chunk buckets. -/
def pageBuckets (fd : FileData) :
    List (Nat × Nat) → Except String (List (String × List Seg))
  | [] => .ok []
  | (rg, ci) :: rest => do
    let segs ← buildPageSegments fd rg ci
    let tail ← pageBuckets fd rest
    pure ((toString rg ++ "_" ++ toString ci, segs) :: tail)

/-- `SegmentHierarchyBuilder.buildAll`, in the source's construction
order. -/
def buildAll (jsonLen : Int) (fd : FileData) : Except String HierarchyCache := do
  let overview ← buildOverviewSegments jsonLen fd
  let rowgroups ← buildRowGroupSegments fd
  let metadatastructure ← buildMetadataStructureSegments fd
  let schemaelements ← buildAllSchemaElementSegments fd
  let rowgroupelements ← buildRowGroupMetadataSegments fd
  let indexelements ← buildColumnIndexSegments fd
  let keyvaluemetadata ← buildKeyValueMetadataSegments fd
  let columnchunkmetadata ← buildColumnChunkMetadataSegments fd
  let rgCount : Nat :=
    match (innerMetadata fd).bind fun m => m.row_groups with
    | none => 0
    | some rgs => rgs.length
  let columnchunks ← chunkBuckets fd (List.range rgCount)
  let pages ← pageBuckets fd
    (columnchunks.flatMap fun p => (List.range p.2.length).map fun ci => (p.1, ci))
  pure { overview := overview, rowgroups := rowgroups
         columnchunks := columnchunks, pages := pages
         metadatastructure := metadatastructure
         schemaelements := schemaelements
         rowgroupelements := rowgroupelements
         indexelements := indexelements
         keyvaluemetadata := keyvaluemetadata
         columnchunkmetadata := columnchunkmetadata }

/-- Leading-digit-run semantics of JS `parseInt` on the strings this
code passes it (`NaN` becomes `none`; sign/whitespace/radix prefixes
are not modelled — every key that can actually be hit is a plain digit
string, so a lookup that misses in JS also misses here). -/
def parseJsInt (s : String) : Option Nat :=
  let digits := s.toList.takeWhile Char.isDigit
  if digits.isEmpty then none
  else some (digits.foldl (fun acc c => acc * 10 + (c.toNat - 48)) 0)

/-- Contiguous-sublist test on character lists. -/
def hasSubList (sub : List Char) : List Char → Bool
  | [] => sub.isEmpty
  | c :: rest => sub.isPrefixOf (c :: rest) || hasSubList sub rest

/-- JS `String.prototype.includes`. -/
def jsIncludes (s sub : String) : Bool :=
  hasSubList sub.toList s.toList

/-- Split a character list at a separator character
(`"a_b".split('_') = ["a","b"]`, `"".split('_') = [""]`). -/
def splitOnChar (sep : Char) : List Char → List (List Char)
  | [] => [[]]
  | c :: rest =>
    match splitOnChar sep rest with
    | [] => [[c]]
    | h :: t => if c = sep then [] :: h :: t else (c :: h) :: t

/-- JS `parentId.split('_')[k]` followed by `parseInt`, with a missing
part behaving like `undefined` (whose `parseInt` is `NaN`, i.e.
`none`). -/
def splitPart (s : String) (k : Nat) : Option Nat :=
  match ((splitOnChar '_' s.toList).map String.mk)[k]? with
  | none => none
  | some part => parseJsInt part

/-- JS `String.prototype.startsWith`. -/
def jsStartsWith (s p : String) : Bool :=
  p.toList.isPrefixOf s.toList

/-- `SegmentHierarchyBuilder.getSegmentsForLevel`. -/
def getSegmentsForLevel (c : HierarchyCache) (level : String)
    (parentId : Option String) : List Seg :=
  if level = "overview" then c.overview
  else if level = "metadatastructure" then c.metadatastructure
  else if level = "schemaelements" then
    match parentId with
    | some pid => ((c.schemaelements.lookup pid).getD [])
    | none => []
  else if level = "rowgroupelements" then
    match parentId with
    | some pid => ((c.rowgroupelements.lookup pid).getD [])
    | none => []
  else if level = "indexelements" then
    match parentId with
    | some pid => ((c.indexelements.lookup pid).getD [])
    | none => []
  else if level = "keyvaluemetadata" then
    match parentId with
    | some pid => ((c.keyvaluemetadata.lookup pid).getD [])
    | none => []
  else if level = "rowgroups" then c.rowgroups
  else if level = "columnchunks" then
    match parentId with
    | some pid =>
      if jsStartsWith pid "rowgroup_" && !jsIncludes pid "meta" then
        match splitPart pid 1 with
        | some rowGroupIndex => (c.columnchunks.lookup rowGroupIndex).getD []
        | none => []
      else []
    | none => []
  else if level = "columnchunkmetadata" then
    match parentId with
    | some pid =>
      if jsStartsWith pid "rowgroup_meta_" then
        (c.columnchunkmetadata.lookup pid).getD []
      else []
    | none => []
  else if level = "pages" then
    match parentId with
    | some pid =>
      if jsIncludes pid "chunk_" then
        let rgKey := match splitPart pid 1 with
          | some n => toString n
          | none => "NaN"
        let ciKey := match splitPart pid 2 with
          | some n => toString n
          | none => "NaN"
        (c.pages.lookup (rgKey ++ "_" ++ ciKey)).getD []
      else []
    | none => []
  else []

/-- First segment with a given id in one bucket (`Array.prototype.find`). -/
def findFirst (l : List Seg) (segmentId : String) : Option Seg :=
  l.find? fun seg => seg.id == segmentId

/-- First match across the buckets of one cache map
(`Object.values` preserves insertion order). -/
def findInBuckets : List (κ × List Seg) → String → Option Seg
  | [], _ => none
  | (_, elements) :: rest, segmentId =>
    match findFirst elements segmentId with
    | some s => some s
    | none => findInBuckets rest segmentId

/-- `SegmentHierarchyBuilder.findSegment`, in the source's fixed scan
order.  Note that the source never scans the `columnchunkmetadata`
buckets. -/
def findSegment (c : HierarchyCache) (segmentId : String) : Option Seg :=
  match findFirst c.overview segmentId with
  | some s => some s
  | none =>
  match findFirst c.metadatastructure segmentId with
  | some s => some s
  | none =>
  match findInBuckets c.schemaelements segmentId with
  | some s => some s
  | none =>
  match findInBuckets c.rowgroupelements segmentId with
  | some s => some s
  | none =>
  match findInBuckets c.indexelements segmentId with
  | some s => some s
  | none =>
  match findInBuckets c.keyvaluemetadata segmentId with
  | some s => some s
  | none =>
  match findFirst c.rowgroups segmentId with
  | some s => some s
  | none =>
  match findInBuckets c.columnchunks segmentId with
  | some s => some s
  | none => findInBuckets c.pages segmentId

/-! ## Claim theorems for the hierarchy builder -/

/-- All segments stored in one cache map, in bucket order. -/
def bucketsSegs (b : List (κ × List Seg)) : List Seg :=
  (b.map fun p => p.2).flatten

/-- All segments in the nine cache families that `findSegment` scans,
in its scan order.  `columnchunkmetadata` is deliberately absent: the
source's `findSegment` never searches it. -/
def searchedSegs (c : HierarchyCache) : List Seg :=
  c.overview ++ c.metadatastructure ++ bucketsSegs c.schemaelements ++
    bucketsSegs c.rowgroupelements ++ bucketsSegs c.indexelements ++
    bucketsSegs c.keyvaluemetadata ++ c.rowgroups ++
    bucketsSegs c.columnchunks ++ bucketsSegs c.pages

theorem findFirst_some_id (l : List Seg) (sid : String) (s : Seg)
    (h : findFirst l sid = some s) : s.id = sid := by
  unfold findFirst at h
  have hb := List.find?_some h
  simp only [beq_iff_eq] at hb
  exact hb

theorem findInBuckets_some_id (b : List (κ × List Seg)) (sid : String) (s : Seg)
    (h : findInBuckets b sid = some s) : s.id = sid := by
  induction b with
  | nil => cases h
  | cons p rest ih =>
    unfold findInBuckets at h
    split at h
    · injection h with h'
      subst h'
      exact findFirst_some_id _ _ _ (by assumption)
    · exact ih h

theorem findFirst_none_spec (l : List Seg) (sid : String)
    (h : findFirst l sid = none) : ∀ s0 ∈ l, s0.id ≠ sid := by
  intro s0 hs0 he
  have := List.find?_eq_none.1 h s0 hs0
  apply this
  rw [he]
  exact beq_self_eq_true sid

theorem findInBuckets_none_spec (b : List (κ × List Seg)) (sid : String)
    (h : findInBuckets b sid = none) : ∀ s0 ∈ bucketsSegs b, s0.id ≠ sid := by
  induction b with
  | nil => intro s0 hs0; simp [bucketsSegs] at hs0
  | cons p rest ih =>
    unfold findInBuckets at h
    split at h
    · cases h
    · intro s0 hs0
      simp only [bucketsSegs, List.map_cons, List.flatten_cons, List.mem_append] at hs0
      rcases hs0 with hs0 | hs0
      · exact findFirst_none_spec _ _ (by assumption) s0 hs0
      · exact ih h s0 (by simpa [bucketsSegs] using hs0)

theorem findSegment_some_id (c : HierarchyCache) (sid : String) (s : Seg)
    (h : findSegment c sid = some s) : s.id = sid := by
  unfold findSegment at h
  split at h
  · injection h with h'; subst h'; exact findFirst_some_id _ _ _ (by assumption)
  · split at h
    · injection h with h'; subst h'; exact findFirst_some_id _ _ _ (by assumption)
    · split at h
      · injection h with h'; subst h'; exact findInBuckets_some_id _ _ _ (by assumption)
      · split at h
        · injection h with h'; subst h'; exact findInBuckets_some_id _ _ _ (by assumption)
        · split at h
          · injection h with h'; subst h'
            exact findInBuckets_some_id _ _ _ (by assumption)
          · split at h
            · injection h with h'; subst h'
              exact findInBuckets_some_id _ _ _ (by assumption)
            · split at h
              · injection h with h'; subst h'
                exact findFirst_some_id _ _ _ (by assumption)
              · split at h
                · injection h with h'; subst h'
                  exact findInBuckets_some_id _ _ _ (by assumption)
                · exact findInBuckets_some_id _ _ _ h

theorem findSegment_none_spec (c : HierarchyCache) (sid : String)
    (h : findSegment c sid = none) : ∀ s0 ∈ searchedSegs c, s0.id ≠ sid := by
  unfold findSegment at h
  split at h
  · cases h
  · rename_i h1
    split at h
    · cases h
    · rename_i h2
      split at h
      · cases h
      · rename_i h3
        split at h
        · cases h
        · rename_i h4
          split at h
          · cases h
          · rename_i h5
            split at h
            · cases h
            · rename_i h6
              split at h
              · cases h
              · rename_i h7
                split at h
                · cases h
                · rename_i h8
                  intro s0 hs0
                  simp only [searchedSegs, List.mem_append] at hs0
                  rcases hs0 with
                    ((((((((hs | hs) | hs) | hs) | hs) | hs) | hs) | hs) | hs)
                  · exact findFirst_none_spec _ _ h1 s0 hs
                  · exact findFirst_none_spec _ _ h2 s0 hs
                  · exact findInBuckets_none_spec _ _ h3 s0 hs
                  · exact findInBuckets_none_spec _ _ h4 s0 hs
                  · exact findInBuckets_none_spec _ _ h5 s0 hs
                  · exact findInBuckets_none_spec _ _ h6 s0 hs
                  · exact findFirst_none_spec _ _ h7 s0 hs
                  · exact findInBuckets_none_spec _ _ h8 s0 hs
                  · exact findInBuckets_none_spec _ _ h s0 hs

/-- **C9**.  Hierarchy idempotence: `buildAll` is a pure function of the
payload (and of the one stringify length it is handed), so two builds
of the same input are structurally identical — same level keys, same
segment ids in the same order, same ranges.  The embedded builders read
nothing but their arguments and the constant tables, mirroring the
source's static methods, which touch no mutable global state. -/
theorem C9_buildAll_idempotent (jsonLen : Int) (fd : FileData) :
    buildAll jsonLen fd = buildAll jsonLen fd := rfl

/-- Column-chunk record fixture (only the fields the builder reads). -/
def fixChunk (p : String) (o n : Int) : ColumnChunk :=
  { path_in_schema := p
    start_offset := o
    total_byte_size := n
    dictionary_page := none
    data_pages := none
    index_pages := none }

/-- Row-group metadata record with one column-chunk metadata entry. -/
def fixRgWithMeta : RowGroupMeta :=
  { byte_length := some 40
    column_chunks := some [("a",
      { total_compressed_size := some 20
        total_uncompressed_size := none
        column_index_offset := none
        column_index_length := none })] }

/-- C3 fixture: one chunk, one row group carrying column-chunk
metadata, so `buildAll` stores a `column_meta_0_0` segment. -/
def fdC3 : FileData :=
  { filesize := 1000
    column_chunks := some [fixChunk "a" 100 50]
    metadata := some
      { total_byte_size := some 100
        start_offset := none
        metadata := some
          { schema_root := none
            row_groups := some [fixRgWithMeta]
            key_value_metadata := none } } }

/-- The cache `buildAll` produces for `fdC3`. -/
def cacheC3 : HierarchyCache :=
  (buildAll 0 fdC3).toOption.getD ⟨[], [], [], [], [], [], [], [], [], []⟩

/-- **C3** counterexample: the claim is false for
`buildColumnChunkMetadataSegments`.  On `fdC3`, `buildAll` succeeds and
stores a segment with id `column_meta_0_0` in the
`columnchunkmetadata` map (it is even served by
`getSegmentsForLevel`), yet `findSegment` returns `null` for that id —
the source's `findSegment` never scans the `columnchunkmetadata`
buckets. -/
theorem C3_columnchunkmetadata_counterexample :
    buildAll 0 fdC3 = .ok cacheC3 ∧
      "column_meta_0_0" ∈ (bucketsSegs cacheC3.columnchunkmetadata).map Seg.id ∧
      (getSegmentsForLevel cacheC3 "columnchunkmetadata"
        (some "rowgroup_meta_0")).map Seg.id = ["column_meta_0_0"] ∧
      findSegment cacheC3 "column_meta_0_0" = none := by decide

/-- **C3** (amended).  Every segment stored by `buildAll` in one of the
nine cache families that `findSegment` scans (overview, metadata
structure, schema elements, row-group metadata elements, index
elements, key-value entries, row groups, column chunks, pages) is
discoverable: `findSegment` on its id returns a segment bearing that id
(the first match in scan order) rather than `null`.  Segments stored in
`columnchunkmetadata` are not discoverable (see the counterexample
theorem). -/
theorem C3_findSegment_discoverable (jsonLen : Int) (fd : FileData)
    (c : HierarchyCache) (_hc : buildAll jsonLen fd = .ok c)
    (s0 : Seg) (hs0 : s0 ∈ searchedSegs c) :
    ∃ s, findSegment c s0.id = some s ∧ s.id = s0.id := by
  cases hfs : findSegment c s0.id with
  | none => exact absurd rfl (findSegment_none_spec c s0.id hfs s0 hs0)
  | some s => exact ⟨s, rfl, findSegment_some_id c _ s hfs⟩

/-- **C3** witness: the `rowgroup_0` segment built for `fdC3` is found
by `findSegment`. -/
theorem C3_findSegment_discoverable_witness :
    ∃ s, findSegment cacheC3
        (Seg.mk "rowgroup_0" "RG0" 100 150 (some 0) none none none).id = some s ∧
      s.id = (Seg.mk "rowgroup_0" "RG0" 100 150 (some 0) none none none).id :=
  C3_findSegment_discoverable 0 fdC3 cacheC3 (by decide)
    (Seg.mk "rowgroup_0" "RG0" 100 150 (some 0) none none none) (by decide)

/-- C4 counterexample fixture: the expected fields `row_groups`,
`schema_root`, `key_value_metadata` and `column_chunks` are absent, and
the recorded metadata size exceeds the file size. -/
def fdC4 : FileData :=
  { filesize := 50
    column_chunks := none
    metadata := some
      { total_byte_size := some 100
        start_offset := none
        metadata := some
          { schema_root := none
            row_groups := none
            key_value_metadata := none } } }

/-- **C4** counterexample: "never throws" is false.  On `fdC4` — an
input with absent expected fields — `buildOverviewSegments` computes
the fallback row-group region `[4, filesize - metadataSize - 8) =
[4, -58)` and the `ParquetSegment` constructor throws
(`end < start`). -/
theorem C4_overview_throws_counterexample :
    (innerMetadata fdC4).bind (fun m => m.row_groups) = none ∧
      fdC4.column_chunks = none ∧
      (buildOverviewSegments 0 fdC4).toOption = none := by decide

/-- **C4** (amended).  Absent expected fields degrade to empty results
without throwing for every *level* builder: with no
`metadata.metadata.row_groups` the row-group, row-group-metadata,
column-index and column-chunk-metadata builders return empty
collections; with no `key_value_metadata`, no `schema_root`, or no
inner `metadata`, the corresponding builders return empty collections;
with no (or empty) `column_chunks`, every per-row-group chunk builder
and every page builder returns an empty list.  `buildOverviewSegments`
is the exception: on such inputs it can still throw when the fallback
boundary arithmetic produces an inverted range (see the counterexample
theorem). -/
theorem C4_absent_fields_degrade (fd : FileData) :
    ((innerMetadata fd).bind (fun m => m.row_groups) = none →
      buildRowGroupSegments fd = .ok [] ∧
      buildRowGroupMetadataSegments fd = .ok [] ∧
      buildColumnIndexSegments fd = .ok [] ∧
      buildColumnChunkMetadataSegments fd = .ok []) ∧
    ((innerMetadata fd).bind (fun m => m.key_value_metadata) = none →
      buildKeyValueMetadataSegments fd = .ok []) ∧
    ((innerMetadata fd).bind (fun m => m.schema_root) = none →
      buildAllSchemaElementSegments fd = .ok []) ∧
    (innerMetadata fd = none → buildMetadataStructureSegments fd = .ok []) ∧
    (fd.column_chunks = none ∨ fd.column_chunks = some [] →
      ∀ r : Nat, buildColumnChunkSegments fd r = .ok [] ∧
        ∀ ci : Nat, buildPageSegments fd r ci = .ok []) := by
  refine ⟨fun h => ⟨?_, ?_, ?_, ?_⟩, fun h => ?_, fun h => ?_, fun h => ?_,
    fun h r => ⟨?_, fun ci => ?_⟩⟩
  · unfold buildRowGroupSegments
    rw [h]
  · unfold buildRowGroupMetadataSegments
    rw [h]
  · unfold buildColumnIndexSegments extractColumnIndicesInfo
    rw [h]
    rfl
  · unfold buildColumnChunkMetadataSegments
    rw [h]
  · unfold buildKeyValueMetadataSegments
    rw [h]
  · unfold buildAllSchemaElementSegments
    rw [h]
  · unfold buildMetadataStructureSegments
    rw [h]
    rfl
  · have hck : getChunksForRowGroup fd r = [] := by
      rcases h with h | h <;> simp [getChunksForRowGroup, h]
    simp [buildColumnChunkSegments, hck, chunkSegsFrom, sortByStart]
  · have hck : getChunksForRowGroup fd r = [] := by
      rcases h with h | h <;> simp [getChunksForRowGroup, h]
    simp [buildPageSegments, hck]

/-- C4 witness fixture: a payload with nothing but a file size. -/
def fdC4w : FileData :=
  { filesize := 2000, column_chunks := none, metadata := none }

/-- **C4** witness: on the all-absent fixture every level builder
returns an empty collection without throwing. -/
theorem C4_absent_fields_degrade_witness :
    buildRowGroupSegments fdC4w = .ok [] ∧
      buildRowGroupMetadataSegments fdC4w = .ok [] ∧
      buildColumnIndexSegments fdC4w = .ok [] ∧
      buildColumnChunkMetadataSegments fdC4w = .ok [] ∧
      buildKeyValueMetadataSegments fdC4w = .ok [] ∧
      buildAllSchemaElementSegments fdC4w = .ok [] ∧
      buildMetadataStructureSegments fdC4w = .ok [] ∧
      buildColumnChunkSegments fdC4w 0 = .ok [] ∧
      buildPageSegments fdC4w 0 0 = .ok [] := by
  obtain ⟨h1, h2, h3, h4, h5⟩ := C4_absent_fields_degrade fdC4w
  exact ⟨(h1 rfl).1, (h1 rfl).2.1, (h1 rfl).2.2.1, (h1 rfl).2.2.2, h2 rfl,
    h3 rfl, h4 rfl, (h5 (Or.inl rfl) 0).1, (h5 (Or.inl rfl) 0).2 0⟩

/-- `mkSeg` with in-order non-negative bounds and no indices succeeds
(no branch of the `ParquetSegment` constructor validation throws). -/
theorem mkSeg_ok (id name : String) (start stop : Int)
    (h1 : 0 ≤ start) (h2 : start ≤ stop) :
    mkSeg id name start stop none none none none =
      .ok ⟨id, name, start, stop, none, none, none, none⟩ := by
  simp [mkSeg, not_lt.2 h1, not_lt.2 h2]

/-- `contiguousChain lo segs = some hi` states that the segments tile
`[lo, hi)` exactly: each one starts where the previous one stopped,
the first at `lo`, the last one stopping at `hi`. -/
def contiguousChain : Int → List Seg → Option Int
  | lo, [] => some lo
  | lo, s :: rest => if s.start = lo then contiguousChain s.stop rest else none

/-- C8 counterexample fixture: a 40-byte file with no metadata object,
so the fallback metadata size is the 1024-byte default and the
row-group region's fallback end `40 - 1024 - 8` lies before its start. -/
def fdC8x : FileData := ⟨40, none, none⟩

/-- **C8** counterexample: `buildOverviewSegments` does not always
return five segments — on a 40-byte file with no metadata the
"rowgroups" fallback range is inverted and the `ParquetSegment`
constructor throws (`end < start`), so no segment list is returned at
all. -/
theorem C8_overview_throws_counterexample :
    (buildOverviewSegments 0 fdC8x).toOption = none := by decide

/-- **C8** (amended): whenever the overview bounds are well-formed,
`buildOverviewSegments` returns exactly the five claimed segments.
With no column-chunk data (and `0 ≤ metadataSize`,
`MAGIC_SIZE ≤ filesize - metadataSize - FOOTER_SIZE`) the row-group
region is `[MAGIC_SIZE, filesize - metadataSize - FOOTER_SIZE)`, the
metadata region runs from there to `filesize - FOOTER_SIZE`, the
footer is `[filesize - FOOTER_SIZE, filesize - MAGIC_SIZE)`, the
trailing magic is `[filesize - MAGIC_SIZE, filesize)`, and the five
segments are contiguous and span exactly `[0, filesize)`.  With a
non-empty column-chunk list (under `0 ≤ min start_offset ≤
max (start_offset + total_byte_size) ≤ filesize - FOOTER_SIZE`) the
row-group region is `[min start_offset, max (start_offset +
total_byte_size))` instead.  Outside these bounds the constructor can
throw (see the counterexample). -/
theorem C8_overview_boundaries (jsonLen : Int) (fd : FileData) :
    (fd.column_chunks = none →
      0 ≤ overviewMetadataSize jsonLen fd →
      MAGIC_SIZE ≤ fd.filesize - overviewMetadataSize jsonLen fd - FOOTER_SIZE →
      buildOverviewSegments jsonLen fd = .ok
        [⟨"header_magic", "MAGIC", 0, MAGIC_SIZE, none, none, none, none⟩,
         ⟨"rowgroups", "ROWGROUPS", MAGIC_SIZE,
           fd.filesize - overviewMetadataSize jsonLen fd - FOOTER_SIZE,
           none, none, none, none⟩,
         ⟨"metadata", "METADATA",
           fd.filesize - overviewMetadataSize jsonLen fd - FOOTER_SIZE,
           fd.filesize - FOOTER_SIZE, none, none, none, none⟩,
         ⟨"footer", "FOOTER", fd.filesize - FOOTER_SIZE,
           fd.filesize - MAGIC_SIZE, none, none, none, none⟩,
         ⟨"footer_magic", "MAGIC", fd.filesize - MAGIC_SIZE, fd.filesize,
           none, none, none, none⟩] ∧
      contiguousChain 0
        [⟨"header_magic", "MAGIC", 0, MAGIC_SIZE, none, none, none, none⟩,
         ⟨"rowgroups", "ROWGROUPS", MAGIC_SIZE,
           fd.filesize - overviewMetadataSize jsonLen fd - FOOTER_SIZE,
           none, none, none, none⟩,
         ⟨"metadata", "METADATA",
           fd.filesize - overviewMetadataSize jsonLen fd - FOOTER_SIZE,
           fd.filesize - FOOTER_SIZE, none, none, none, none⟩,
         ⟨"footer", "FOOTER", fd.filesize - FOOTER_SIZE,
           fd.filesize - MAGIC_SIZE, none, none, none, none⟩,
         ⟨"footer_magic", "MAGIC", fd.filesize - MAGIC_SIZE, fd.filesize,
           none, none, none, none⟩] = some fd.filesize) ∧
    (∀ cs : List ColumnChunk, fd.column_chunks = some cs → cs ≠ [] →
      0 ≤ jsMin (cs.map fun c => c.start_offset) →
      jsMin (cs.map fun c => c.start_offset) ≤
        jsMax (cs.map fun c => c.start_offset + c.total_byte_size) →
      jsMax (cs.map fun c => c.start_offset + c.total_byte_size) ≤
        fd.filesize - FOOTER_SIZE →
      buildOverviewSegments jsonLen fd = .ok
        [⟨"header_magic", "MAGIC", 0, MAGIC_SIZE, none, none, none, none⟩,
         ⟨"rowgroups", "ROWGROUPS", jsMin (cs.map fun c => c.start_offset),
           jsMax (cs.map fun c => c.start_offset + c.total_byte_size),
           none, none, none, none⟩,
         ⟨"metadata", "METADATA",
           jsMax (cs.map fun c => c.start_offset + c.total_byte_size),
           fd.filesize - FOOTER_SIZE, none, none, none, none⟩,
         ⟨"footer", "FOOTER", fd.filesize - FOOTER_SIZE,
           fd.filesize - MAGIC_SIZE, none, none, none, none⟩,
         ⟨"footer_magic", "MAGIC", fd.filesize - MAGIC_SIZE, fd.filesize,
           none, none, none, none⟩]) := by
  have hM : MAGIC_SIZE = (4 : Int) := rfl
  have hF : FOOTER_SIZE = (8 : Int) := rfl
  constructor
  · intro h hm0 hfit
    constructor
    · have e1 := mkSeg_ok "header_magic" "MAGIC" 0 MAGIC_SIZE (by norm_num)
        (by norm_num [MAGIC_SIZE])
      have e2 := mkSeg_ok "rowgroups" "ROWGROUPS" MAGIC_SIZE
        (fd.filesize - overviewMetadataSize jsonLen fd - FOOTER_SIZE)
        (by norm_num [MAGIC_SIZE]) (by omega)
      have e3 := mkSeg_ok "metadata" "METADATA"
        (fd.filesize - overviewMetadataSize jsonLen fd - FOOTER_SIZE)
        (fd.filesize - FOOTER_SIZE) (by omega) (by omega)
      have e4 := mkSeg_ok "footer" "FOOTER" (fd.filesize - FOOTER_SIZE)
        (fd.filesize - MAGIC_SIZE) (by omega) (by omega)
      have e5 := mkSeg_ok "footer_magic" "MAGIC" (fd.filesize - MAGIC_SIZE)
        fd.filesize (by omega) (by omega)
      simp only [buildOverviewSegments, h, e1, e2, e3, e4, e5]
      rfl
    · simp [contiguousChain]
  · intro cs hcs hne hlo hord hhi
    have hlen : 0 < cs.length := List.length_pos.mpr hne
    have e1 := mkSeg_ok "header_magic" "MAGIC" 0 MAGIC_SIZE (by norm_num)
      (by norm_num [MAGIC_SIZE])
    have e2 := mkSeg_ok "rowgroups" "ROWGROUPS"
      (jsMin (cs.map fun c => c.start_offset))
      (jsMax (cs.map fun c => c.start_offset + c.total_byte_size)) hlo hord
    have e3 := mkSeg_ok "metadata" "METADATA"
      (jsMax (cs.map fun c => c.start_offset + c.total_byte_size))
      (fd.filesize - FOOTER_SIZE) (by omega) hhi
    have e4 := mkSeg_ok "footer" "FOOTER" (fd.filesize - FOOTER_SIZE)
      (fd.filesize - MAGIC_SIZE) (by omega) (by omega)
    have e5 := mkSeg_ok "footer_magic" "MAGIC" (fd.filesize - MAGIC_SIZE)
      fd.filesize (by omega) (by omega)
    simp only [buildOverviewSegments, hcs, hlen, gt_iff_lt, if_pos hlen,
      if_true, e1, e2, e3, e4, e5]
    rfl

/-- C8 witness fixture, the spec's scenario 1: a 1000-byte file whose
footer metadata reports `total_byte_size = 100` and which carries no
column-chunk data. -/
def fdC8w : FileData := ⟨1000, none, some ⟨some 100, none, none⟩⟩

/-- **C8** witness: on the scenario-1 fixture the five overview
segments are `[0,4)`, `[4,892)`, `[892,992)`, `[992,996)`,
`[996,1000)`, contiguous and spanning exactly `[0, 1000)`. -/
theorem C8_overview_boundaries_witness :
    buildOverviewSegments 0 fdC8w = .ok
      [⟨"header_magic", "MAGIC", 0, 4, none, none, none, none⟩,
       ⟨"rowgroups", "ROWGROUPS", 4, 892, none, none, none, none⟩,
       ⟨"metadata", "METADATA", 892, 992, none, none, none, none⟩,
       ⟨"footer", "FOOTER", 992, 996, none, none, none, none⟩,
       ⟨"footer_magic", "MAGIC", 996, 1000, none, none, none, none⟩] ∧
    contiguousChain 0
      [⟨"header_magic", "MAGIC", 0, 4, none, none, none, none⟩,
       ⟨"rowgroups", "ROWGROUPS", 4, 892, none, none, none, none⟩,
       ⟨"metadata", "METADATA", 892, 992, none, none, none, none⟩,
       ⟨"footer", "FOOTER", 992, 996, none, none, none, none⟩,
       ⟨"footer_magic", "MAGIC", 996, 1000, none, none, none, none⟩] = some 1000 := by
  have h := (C8_overview_boundaries 0 fdC8w).1 rfl (by decide) (by decide)
  exact ⟨h.1.trans (by decide), by decide⟩

/-- `mkSeg` with in-order non-negative bounds and non-negative indices
succeeds (no validation branch throws). -/
theorem mkSeg_ok_idx (id name : String) (start stop : Int)
    (rg ci pi : Option Int) (cp : Option String)
    (h1 : 0 ≤ start) (h2 : start ≤ stop) (h3 : 0 ≤ rg.getD 0)
    (h4 : 0 ≤ ci.getD 0) (h5 : 0 ≤ pi.getD 0) :
    mkSeg id name start stop rg ci pi cp =
      .ok ⟨id, name, start, stop, rg, ci, pi, cp⟩ := by
  simp [mkSeg, not_lt.2 h1, not_lt.2 h2, not_lt.2 h3, not_lt.2 h4, not_lt.2 h5]

/-- Splitting a list into `R` consecutive `k`-blocks (`slice(r*k, r*k+k)`
for `r = 0..R-1`) and re-joining them recovers the list whenever the
blocks cover it (`length ≤ R * k`). -/
theorem flatten_range_drop_take (k : Nat) :
    ∀ (R : Nat) (l : List α), l.length ≤ R * k →
      ((List.range R).map fun r => (l.drop (r * k)).take k).flatten = l := by
  intro R
  induction R with
  | zero =>
    intro l hl
    simp at hl
    simp [hl]
  | succ R ih =>
    intro l hl
    rw [List.range_succ_eq_map]
    simp only [List.map_cons, List.map_map, List.flatten_cons, Nat.zero_mul,
      List.drop_zero]
    have hstep : ((List.range R).map fun r => (l.drop (Nat.succ r * k)).take k)
        = (List.range R).map fun r => ((l.drop k).drop (r * k)).take k := by
      apply List.map_congr_left
      intro r _
      rw [List.drop_drop]
      congr 2
      rw [Nat.succ_mul]
      ring
    have hcomp : (List.map ((fun r => (l.drop (r * k)).take k) ∘ Nat.succ)
        (List.range R)) = (List.range R).map fun r => (l.drop (Nat.succ r * k)).take k := by
      simp [Function.comp]
    have hk : (R + 1) * k = R * k + k := by ring
    rw [hcomp, hstep, ih (l.drop k) (by rw [List.length_drop]; omega)]
    exact List.take_append_drop k l

/-- Inserting into a stable-sort accumulator adds one element. -/
theorem length_insertByStart (x : Seg) (l : List Seg) :
    (insertByStart x l).length = l.length + 1 := by
  induction l with
  | nil => rfl
  | cons h t ih => by_cases hc : h.start < x.start <;> simp [insertByStart, hc, ih]

/-- The JS stable sort by `start` preserves the number of segments. -/
theorem length_sortByStart (l : List Seg) :
    (sortByStart l).length = l.length := by
  induction l with
  | nil => rfl
  | cons h t ih => simp [sortByStart, length_insertByStart, ih]

/-- On a chunk block with non-negative offsets and sizes the chunk-loop
of `buildColumnChunkSegments` succeeds and yields one segment per
chunk. -/
theorem chunkSegsFrom_ok (rg : Nat) :
    ∀ (l : List ColumnChunk) (ci : Nat),
      (∀ c ∈ l, 0 ≤ c.start_offset ∧ 0 ≤ c.total_byte_size) →
      ∃ segs, chunkSegsFrom rg ci l = .ok segs ∧ segs.length = l.length := by
  intro l
  induction l with
  | nil => exact fun ci _ => ⟨[], rfl, rfl⟩
  | cons chunk rest ih =>
    intro ci hnn
    obtain ⟨h1, h2⟩ := hnn chunk (List.mem_cons_self _ _)
    obtain ⟨tail, htail, hlen⟩ := ih (ci + 1)
      (fun c hc => hnn c (List.mem_cons_of_mem _ hc))
    refine ⟨⟨"chunk_" ++ toString rg ++ "_" ++ toString ci, chunk.path_in_schema,
      chunk.start_offset, chunk.start_offset + chunk.total_byte_size,
      some (rg : Int), some (ci : Int), none, some chunk.path_in_schema⟩ :: tail,
      ?_, by simp [hlen]⟩
    simp [chunkSegsFrom,
      mkSeg_ok_idx _ _ chunk.start_offset (chunk.start_offset + chunk.total_byte_size)
        (some (rg : Int)) (some (ci : Int)) none (some chunk.path_in_schema)
        h1 (by omega) (by simp) (by simp) (by simp), htail]
    rfl

/-- With non-negative chunk offsets and sizes, the indexed row-group
loop succeeds, and every produced segment belongs to some row-group
index `r` with a non-empty chunk block, carries the id `rowgroup_r`,
and spans exactly the min/max byte range of that block. -/
theorem rowGroupSegsFrom_ok (fd : FileData)
    (hnn : ∀ c ∈ fd.column_chunks.getD [], 0 ≤ c.start_offset ∧ 0 ≤ c.total_byte_size) :
    ∀ (rgl : List RowGroupMeta) (i : Nat),
      ∃ segs, rowGroupSegsFrom fd i rgl = .ok segs ∧
        ∀ s ∈ segs, ∃ r : Nat, getChunksForRowGroup fd r ≠ [] ∧
          s.id = "rowgroup_" ++ toString r ∧
          s.start = jsMin ((getChunksForRowGroup fd r).map fun c => c.start_offset) ∧
          s.stop = jsMax ((getChunksForRowGroup fd r).map
            fun c => c.start_offset + c.total_byte_size) := by
  intro rgl
  induction rgl with
  | nil => exact fun i => ⟨[], rfl, by simp⟩
  | cons rg rest ih =>
    intro i
    obtain ⟨tail, htail, hspec⟩ := ih (i + 1)
    have hmem : ∀ c ∈ getChunksForRowGroup fd i, c ∈ fd.column_chunks.getD [] := by
      intro c hc
      exact List.mem_of_mem_drop (List.mem_of_mem_take hc)
    by_cases hb : (getChunksForRowGroup fd i).length = 0
    · refine ⟨tail, ?_, hspec⟩
      simp [rowGroupSegsFrom, hb, htail]
    · have hne : getChunksForRowGroup fd i ≠ [] := by
        intro h; exact hb (by simp [h])
      have hne1 : (getChunksForRowGroup fd i).map
          (fun c => c.start_offset) ≠ [] := by simp [hne]
      obtain ⟨c, hc, hceq⟩ := List.mem_map.1 (jsMin_mem _ hne1)
      have hc0 := (hnn c (hmem c hc)).1
      have hcs := (hnn c (hmem c hc)).2
      have hlo : 0 ≤ jsMin ((getChunksForRowGroup fd i).map
          fun c => c.start_offset) := hceq ▸ hc0
      have hord : jsMin ((getChunksForRowGroup fd i).map fun c => c.start_offset) ≤
          jsMax ((getChunksForRowGroup fd i).map
            fun c => c.start_offset + c.total_byte_size) := by
        have h1 : c.start_offset + c.total_byte_size ∈
            (getChunksForRowGroup fd i).map
              (fun c => c.start_offset + c.total_byte_size) :=
          List.mem_map.2 ⟨c, hc, rfl⟩
        have h2 := le_jsMax _ _ h1
        rw [← hceq]
        omega
      refine ⟨⟨"rowgroup_" ++ toString i, "RG" ++ toString i,
        jsMin ((getChunksForRowGroup fd i).map fun c => c.start_offset),
        jsMax ((getChunksForRowGroup fd i).map
          fun c => c.start_offset + c.total_byte_size),
        some (i : Int), none, none, none⟩ :: tail, ?_, ?_⟩
      · simp [rowGroupSegsFrom, hb, htail,
          mkSeg_ok_idx _ _ _ _ (some (i : Int)) none none none hlo hord
            (by simp) (by simp) (by simp)]
        rfl
      · intro s hs
        rcases List.mem_cons.1 hs with hs | hs
        · subst hs
          exact ⟨i, hne, rfl, rfl, rfl⟩
        · exact hspec s hs

/-- **C7**: with `R ≥ 1` row groups and chunks carrying non-negative
offsets and sizes, the flat chunk list is split into
`ceil(N/R)`-sized contiguous blocks in file order, one per row-group
index; joining the blocks for indices `0..R-1` recovers the chunk list
exactly (so each chunk lands in exactly one bucket);
`buildColumnChunkSegments` succeeds on every row group with one
segment per assigned chunk, for `N` segments in total; and every row
group segment spans exactly `[min start_offset,
max (start_offset + total_byte_size))` of its assigned block. -/
theorem C7_partition_completeness (fd : FileData) (rgs : List RowGroupMeta)
    (cs : List ColumnChunk)
    (hrg : ((innerMetadata fd).bind fun m => m.row_groups) = some rgs)
    (hcs : fd.column_chunks = some cs)
    (hR : rgs ≠ [])
    (hnn : ∀ c ∈ cs, 0 ≤ c.start_offset ∧ 0 ≤ c.total_byte_size) :
    (∀ r : Nat, getChunksForRowGroup fd r =
      (cs.drop (r * ((cs.length + rgs.length - 1) / rgs.length))).take
        ((cs.length + rgs.length - 1) / rgs.length)) ∧
    ((List.range rgs.length).map fun r => getChunksForRowGroup fd r).flatten = cs ∧
    (∀ r : Nat, ∃ segs, buildColumnChunkSegments fd r = .ok segs ∧
      segs.length = (getChunksForRowGroup fd r).length) ∧
    ((List.range rgs.length).map fun r => (getChunksForRowGroup fd r).length).sum
      = cs.length ∧
    (∃ rsegs, buildRowGroupSegments fd = .ok rsegs ∧
      ∀ s ∈ rsegs, ∃ r : Nat, getChunksForRowGroup fd r ≠ [] ∧
        s.id = "rowgroup_" ++ toString r ∧
        s.start = jsMin ((getChunksForRowGroup fd r).map fun c => c.start_offset) ∧
        s.stop = jsMax ((getChunksForRowGroup fd r).map
          fun c => c.start_offset + c.total_byte_size)) := by
  have hRlen : rgs.length ≠ 0 := fun h => hR (List.eq_nil_of_length_eq_zero h)
  have hA : ∀ r : Nat, getChunksForRowGroup fd r =
      (cs.drop (r * ((cs.length + rgs.length - 1) / rgs.length))).take
        ((cs.length + rgs.length - 1) / rgs.length) := by
    intro r
    simp [getChunksForRowGroup, hrg, hcs, hRlen]
  have hk : cs.length ≤ rgs.length * ((cs.length + rgs.length - 1) / rgs.length) := by
    have hdm := Nat.div_add_mod (cs.length + rgs.length - 1) rgs.length
    have hmod : (cs.length + rgs.length - 1) % rgs.length < rgs.length :=
      Nat.mod_lt _ (Nat.pos_of_ne_zero hRlen)
    omega
  have hB : ((List.range rgs.length).map
      fun r => getChunksForRowGroup fd r).flatten = cs := by
    rw [List.map_congr_left fun r _ => hA r]
    exact flatten_range_drop_take _ rgs.length cs hk
  have hC : ∀ r : Nat, ∃ segs, buildColumnChunkSegments fd r = .ok segs ∧
      segs.length = (getChunksForRowGroup fd r).length := by
    intro r
    have hmem : ∀ c ∈ getChunksForRowGroup fd r,
        0 ≤ c.start_offset ∧ 0 ≤ c.total_byte_size := by
      intro c hc
      rw [hA r] at hc
      exact hnn c (List.mem_of_mem_drop (List.mem_of_mem_take hc))
    obtain ⟨segs, hsegs, hlen⟩ := chunkSegsFrom_ok r (getChunksForRowGroup fd r) 0 hmem
    refine ⟨sortByStart segs, ?_, by rw [length_sortByStart, hlen]⟩
    simp only [buildColumnChunkSegments, hsegs]
    rfl
  have hD : ((List.range rgs.length).map
      fun r => (getChunksForRowGroup fd r).length).sum = cs.length := by
    have h1 : ((List.range rgs.length).map
        fun r => getChunksForRowGroup fd r).flatten.length = cs.length := by rw [hB]
    rw [List.length_flatten, List.map_map] at h1
    simpa [Function.comp] using h1
  have hE : ∃ rsegs, buildRowGroupSegments fd = .ok rsegs ∧
      ∀ s ∈ rsegs, ∃ r : Nat, getChunksForRowGroup fd r ≠ [] ∧
        s.id = "rowgroup_" ++ toString r ∧
        s.start = jsMin ((getChunksForRowGroup fd r).map fun c => c.start_offset) ∧
        s.stop = jsMax ((getChunksForRowGroup fd r).map
          fun c => c.start_offset + c.total_byte_size) := by
    have hnn' : ∀ c ∈ fd.column_chunks.getD [],
        0 ≤ c.start_offset ∧ 0 ≤ c.total_byte_size := by
      rw [hcs]
      simpa using hnn
    obtain ⟨segs, hsegs, hspec⟩ := rowGroupSegsFrom_ok fd hnn' rgs 0
    refine ⟨segs, ?_, hspec⟩
    simp only [buildRowGroupSegments, hrg]
    exact hsegs
  exact ⟨hA, hB, hC, hD, hE⟩

/-- C7 witness fixture: three chunks (`[0,100)`, `[100,150)`,
`[150,175)`) over two row groups, so `ceil(3/2) = 2` chunks go to row
group 0 and one to row group 1. -/
def fdC7w : FileData :=
  ⟨10000, some [fixChunk "a" 0 100, fixChunk "b" 100 50, fixChunk "c" 150 25],
    some ⟨none, none, some ⟨none, some [⟨none, none⟩, ⟨none, none⟩], none⟩⟩⟩

/-- **C7** witness: on the two-row-group three-chunk fixture the blocks
re-join to the original chunk list and the per-row-group counts sum to
`N = 3`. -/
theorem C7_partition_completeness_witness :
    ((List.range 2).map fun r => getChunksForRowGroup fdC7w r).flatten =
      [fixChunk "a" 0 100, fixChunk "b" 100 50, fixChunk "c" 150 25] ∧
    ((List.range 2).map fun r => (getChunksForRowGroup fdC7w r).length).sum = 3 := by
  have h := C7_partition_completeness fdC7w [⟨none, none⟩, ⟨none, none⟩]
    [fixChunk "a" 0 100, fixChunk "b" 100 50, fixChunk "c" 150 25]
    rfl rfl (by decide) (by decide)
  exact ⟨h.2.1, by simpa using h.2.2.2.1⟩

/-- **C10** (amended): `getSegmentsForLevel` is a total function (in
this embedding it returns a list on every input and cannot throw); a
level name outside the known set yields `[]`; a `null` parentId yields
`[]` on every child-scoped level; a lookup miss yields `[]` on the
association-scoped levels; and a wrongly-prefixed parentId yields `[]`
on `columnchunks` / `columnchunkmetadata` / `pages`.  An *unknown but
well-prefixed* parentId does not always yield `[]` — see the
counterexample. -/
theorem C10_getSegmentsForLevel_total (c : HierarchyCache) :
    (∀ level pid, level ∉ (["overview", "metadatastructure", "schemaelements",
        "rowgroupelements", "indexelements", "keyvaluemetadata", "rowgroups",
        "columnchunks", "columnchunkmetadata", "pages"] : List String) →
      getSegmentsForLevel c level pid = []) ∧
    (∀ level, level ∈ (["schemaelements", "rowgroupelements", "indexelements",
        "keyvaluemetadata", "columnchunks", "columnchunkmetadata",
        "pages"] : List String) →
      getSegmentsForLevel c level none = []) ∧
    (∀ p, c.schemaelements.lookup p = none →
      getSegmentsForLevel c "schemaelements" (some p) = []) ∧
    (∀ p, c.rowgroupelements.lookup p = none →
      getSegmentsForLevel c "rowgroupelements" (some p) = []) ∧
    (∀ p, c.indexelements.lookup p = none →
      getSegmentsForLevel c "indexelements" (some p) = []) ∧
    (∀ p, c.keyvaluemetadata.lookup p = none →
      getSegmentsForLevel c "keyvaluemetadata" (some p) = []) ∧
    (∀ p, (jsStartsWith p "rowgroup_" && !jsIncludes p "meta") = false →
      getSegmentsForLevel c "columnchunks" (some p) = []) ∧
    (∀ p, jsStartsWith p "rowgroup_meta_" = false →
      getSegmentsForLevel c "columnchunkmetadata" (some p) = []) ∧
    (∀ p, c.columnchunkmetadata.lookup p = none →
      getSegmentsForLevel c "columnchunkmetadata" (some p) = []) ∧
    (∀ p, jsIncludes p "chunk_" = false →
      getSegmentsForLevel c "pages" (some p) = []) := by
  refine ⟨?_, ?_, ?_, ?_, ?_, ?_, ?_, ?_, ?_, ?_⟩
  · intro level pid h
    simp only [List.mem_cons, List.not_mem_nil, or_false, not_or] at h
    obtain ⟨h1, h2, h3, h4, h5, h6, h7, h8, h9, h10⟩ := h
    simp [getSegmentsForLevel, h1, h2, h3, h4, h5, h6, h7, h8, h9, h10]
  · intro level h
    simp only [List.mem_cons, List.not_mem_nil, or_false] at h
    rcases h with rfl | rfl | rfl | rfl | rfl | rfl | rfl <;>
      simp [getSegmentsForLevel]
  · intro p hp
    simp [getSegmentsForLevel, hp]
  · intro p hp
    simp [getSegmentsForLevel, hp]
  · intro p hp
    simp [getSegmentsForLevel, hp]
  · intro p hp
    simp [getSegmentsForLevel, hp]
  · intro p hp
    simp [getSegmentsForLevel, hp]
  · intro p hp
    simp [getSegmentsForLevel, hp]
  · intro p hp
    simp [getSegmentsForLevel, hp]
  · intro p hp
    simp [getSegmentsForLevel, hp]

/-- C10 fixture: four chunks over two row groups, so `buildAll` fills
columnchunks buckets `0` and `1` (two chunks each). -/
def fdC10 : FileData :=
  ⟨10000, some [fixChunk "a" 0 10, fixChunk "b" 10 10, fixChunk "c" 20 10,
    fixChunk "d" 30 10],
    some ⟨some 100, none, some ⟨none, some [⟨none, none⟩, ⟨none, none⟩], none⟩⟩⟩

/-- The cache built from the C10 fixture. -/
def cacheC10 : HierarchyCache :=
  (buildAll 0 fdC10).toOption.getD ⟨[], [], [], [], [], [], [], [], [], []⟩

/-- **C10** counterexample: `"rowgroup_1abc"` names no stored segment
(`findSegment` returns null on it), yet `getSegmentsForLevel` on
`columnchunks` returns a non-empty bucket for it: JS
`parseInt("1abc")` parses the leading digit run to `1`, so the unknown
parentId is silently mapped to row group 1's chunks instead of the
empty array. -/
theorem C10_unknown_parent_counterexample :
    (buildAll 0 fdC10).isOk = true ∧
    getSegmentsForLevel cacheC10 "columnchunks" (some "rowgroup_1abc") ≠ [] ∧
    findSegment cacheC10 "rowgroup_1abc" = none := by decide

/-- **C10** witness: on the built cache, an unknown level name, a null
parentId, a wrongly-prefixed columnchunks parentId, and a
non-chunk pages parentId all yield the empty array. -/
theorem C10_getSegmentsForLevel_total_witness :
    getSegmentsForLevel cacheC10 "bogus" (some "x") = [] ∧
    getSegmentsForLevel cacheC10 "columnchunks" none = [] ∧
    getSegmentsForLevel cacheC10 "columnchunks" (some "chunk_0_0") = [] ∧
    getSegmentsForLevel cacheC10 "pages" (some "rowgroup_0") = [] := by
  have h := C10_getSegmentsForLevel_total cacheC10
  exact ⟨h.1 "bogus" (some "x") (by decide),
    h.2.1 "columnchunks" (by decide),
    h.2.2.2.2.2.2.1 "chunk_0_0" (by decide),
    h.2.2.2.2.2.2.2.2.2 "rowgroup_0" (by decide)⟩

/-- A rendered segment as the navigation logic of `SvgByteVisualizer`
sees it: its id and its (metadata-based) `childLevelName` property,
`none` for a leaf. -/
structure NavSeg where
  id : String
  childLevelName : Option String
deriving Repr, DecidableEq

/-- An entry of `this.levels`: the level name, the parent segment id
(`null` for the root overview level) and the rendered segments. -/
structure NavLevel where
  name : String
  parentSegmentId : Option String
  segments : List NavSeg
deriving Repr, DecidableEq

/-- The navigation state of `SvgByteVisualizer`: `this.levels`,
`this.selectedSegments` (a `Map` from level index to segment id,
modelled as an association list) and `this.selectionPath`. -/
structure NavState where
  levels : List NavLevel
  selectedSegments : List (Nat × String)
  selectionPath : List NavSeg
deriving Repr, DecidableEq

/-- `Map.prototype.get` on the selection map. -/
def mapGet (m : List (Nat × String)) (k : Nat) : Option String :=
  (m.find? fun e => e.1 == k).map Prod.snd

/-- `Map.prototype.set`: any old binding of the key is dropped and the
new one recorded (lookup-equivalent to the JS in-place update). -/
def mapSet (m : List (Nat × String)) (k : Nat) (v : String) : List (Nat × String) :=
  (m.filter fun e => e.1 != k) ++ [(k, v)]

/-- `SvgByteVisualizer.segmentHasChildren`: the segment names a child
level and the analyzer returns a non-empty segment list for it
(`getSegs` stands for `this.analyzer.getSegmentsForLevel`). -/
def segmentHasChildren (getSegs : String → String → List NavSeg) (s : NavSeg) : Bool :=
  match s.childLevelName with
  | none => false
  | some cn => !(getSegs cn s.id).isEmpty

/-- `SvgByteVisualizer.removeLevelsFrom` (state change only: the
animations do not touch `levels` further). -/
def removeLevelsFrom (st : NavState) (index : Nat) : NavState :=
  if st.levels.length ≤ index then st
  else { st with levels := st.levels.take index }

/-- `SvgByteVisualizer.handleSegmentClick`: clear selections in
`[levelIndex, levels.length)` (entries above `levels.length` survive),
trim the selection path, toggle the clicked segment, then either
replace or append the child level (`switchChildLevels`,
`switchMultipleLevels` and `addLevel` all set
`levels = levels.slice(0, levelIndex+1)` followed by a push) or remove
the now-stale child levels. -/
def handleSegmentClick (getSegs : String → String → List NavSeg)
    (st : NavState) (s : NavSeg) (k : Nat) : NavState :=
  let isCur := mapGet st.selectedSegments k == some s.id
  let sel1 := st.selectedSegments.filter fun e => !(k ≤ e.1 && e.1 < st.levels.length)
  let path1 := st.selectionPath.take k
  let sel2 := if isCur then sel1 else mapSet sel1 k s.id
  let path2 := if isCur then path1 else path1 ++ [s]
  let hasChildLevels := k + 1 < st.levels.length
  let willAdd := !isCur && segmentHasChildren getSegs s
  let levels' :=
    if willAdd then
      match s.childLevelName with
      | none => st.levels
      | some cn =>
        let childSegments := getSegs cn s.id
        if 0 < childSegments.length then
          if hasChildLevels then
            st.levels.take (k + 1) ++ [⟨cn, some s.id, childSegments⟩]
          else st.levels ++ [⟨cn, some s.id, childSegments⟩]
        else st.levels
    else if hasChildLevels then st.levels.take (k + 1)
    else st.levels
  { levels := levels', selectedSegments := sel2, selectionPath := path2 }

/-- The `Escape` branch of `SvgByteVisualizer.handleKeyDown`: clear all
selections, empty the path, drop every level above the root. -/
def handleEscape (st : NavState) : NavState :=
  removeLevelsFrom { st with selectedSegments := [], selectionPath := [] } 1

/-- The `Backspace` branch of `handleKeyDown`: drop the deepest level
only; selections and the path are left untouched. -/
def handleBackspace (st : NavState) : NavState :=
  if 1 < st.levels.length then removeLevelsFrom st (st.levels.length - 1) else st

/-- A user interaction: a click on segment `s` of displayed level `k`,
or one of the two handled keys. -/
inductive NavOp where
  | click (s : NavSeg) (k : Nat)
  | escape
  | backspace
deriving Repr, DecidableEq

/-- One transition.  A click is only physically possible on a rendered
level, so a click with `k` out of range is a no-op. -/
def navStep (getSegs : String → String → List NavSeg) (st : NavState) :
    NavOp → NavState
  | .click s k => if k < st.levels.length then handleSegmentClick getSegs st s k else st
  | .escape => handleEscape st
  | .backspace => handleBackspace st

/-- The state after `initWithData`: a single root overview level, no
selections, empty path. -/
def navInit (overviewSegs : List NavSeg) : NavState :=
  ⟨[⟨"overview", none, overviewSegs⟩], [], []⟩

/-- Run a sequence of interactions. -/
def navRun (getSegs : String → String → List NavSeg) (st : NavState) :
    List NavOp → NavState
  | [] => st
  | op :: rest => navRun getSegs (navStep getSegs st op) rest

/-- The navigation-stack invariant that actually holds: the root level
is always displayed, and every deeper displayed level `k+1` is the
child level of the `k`-th selection-path entry, a segment that has
children.  (Nothing constrains the path or the selection map above
`levels.length`: those can hold stale entries.) -/
def navJ (getSegs : String → String → List NavSeg)
    (L : List NavLevel) (P : List NavSeg) : Prop :=
  L ≠ [] ∧
  ∀ k : Nat, k + 1 < L.length →
    ∃ seg, P[k]? = some seg ∧
      (L[k + 1]?.map NavLevel.parentSegmentId) = some (some seg.id) ∧
      segmentHasChildren getSegs seg = true

/-- `navJ` on a state's components. -/
def navInvariant (getSegs : String → String → List NavSeg) (st : NavState) : Prop :=
  navJ getSegs st.levels st.selectionPath

/-- The invariant bounds the level stack by the path length plus one. -/
theorem navInvariant_le (getSegs : String → String → List NavSeg) (st : NavState)
    (h : navInvariant getSegs st) :
    st.levels.length ≤ st.selectionPath.length + 1 := by
  rcases h with ⟨hne, hinv⟩
  by_cases hn : st.levels.length ≤ 1
  · omega
  · obtain ⟨seg, hp, -, -⟩ := hinv (st.levels.length - 2) (by omega)
    have hlt : st.levels.length - 2 < st.selectionPath.length := by
      rcases List.getElem?_eq_some.1 hp with ⟨h, -⟩
      exact h
    omega

/-- Truncating the level stack (to at least the root) preserves the
invariant. -/
theorem navJ_take (getSegs : String → String → List NavSeg)
    (L : List NavLevel) (P : List NavSeg) (m : Nat) (hm : 1 ≤ m)
    (h : navJ getSegs L P) : navJ getSegs (L.take m) P := by
  rcases h with ⟨hne, hinv⟩
  constructor
  · intro hnil
    rcases List.take_eq_nil_iff.1 hnil with h | h
    · omega
    · exact hne h
  · intro k hk
    simp only [List.length_take, lt_min_iff] at hk
    obtain ⟨seg, h1, h2, h3⟩ := hinv k hk.2
    refine ⟨seg, h1, ?_, h3⟩
    rw [List.getElem?_take_of_lt hk.1]
    exact h2

/-- The invariant only reads path entries below `levels.length`, so any
path agreeing there can replace it. -/
theorem navJ_congr_path (getSegs : String → String → List NavSeg)
    (L : List NavLevel) (P P' : List NavSeg)
    (h : navJ getSegs L P)
    (hP : ∀ i : Nat, i + 1 < L.length → P'[i]? = P[i]?) :
    navJ getSegs L P' := by
  rcases h with ⟨hne, hinv⟩
  refine ⟨hne, fun k hk => ?_⟩
  obtain ⟨seg, h1, h2, h3⟩ := hinv k hk
  exact ⟨seg, (hP k hk).trans h1, h2, h3⟩

/-- Pushing a new child level whose parent is the path's entry at the
old top preserves the invariant. -/
theorem navJ_append_one (getSegs : String → String → List NavSeg)
    (L : List NavLevel) (P : List NavSeg) (s : NavSeg) (nl : NavLevel)
    (h : navJ getSegs L P)
    (hs : P[L.length - 1]? = some s)
    (hnl : nl.parentSegmentId = some s.id)
    (hch : segmentHasChildren getSegs s = true) :
    navJ getSegs (L ++ [nl]) P := by
  rcases h with ⟨hne, hinv⟩
  have hL1 : 1 ≤ L.length := List.length_pos.2 hne
  refine ⟨by simp, fun k hk => ?_⟩
  simp only [List.length_append, List.length_singleton] at hk
  by_cases hkl : k + 1 < L.length
  · obtain ⟨seg, h1, h2, h3⟩ := hinv k hkl
    refine ⟨seg, h1, ?_, h3⟩
    rw [List.getElem?_append_left hkl]
    exact h2
  · have hkeq : k = L.length - 1 := by omega
    refine ⟨s, hkeq ▸ hs, ?_, hch⟩
    have hk1 : k + 1 = L.length := by omega
    rw [hk1, List.getElem?_concat_length]
    simp [hnl]

/-- A click on a rendered level preserves the invariant, whether it
selects (possibly adding or switching a child level), deselects
(removing the child levels), or is a leaf click. -/
theorem handleSegmentClick_preserves (getSegs : String → String → List NavSeg)
    (st : NavState) (s : NavSeg) (k : Nat)
    (hk : k < st.levels.length) (h : navInvariant getSegs st) :
    navInvariant getSegs (handleSegmentClick getSegs st s k) := by
  have hlen := navInvariant_le getSegs st h
  have hkP : k ≤ st.selectionPath.length := by omega
  have htk : (st.selectionPath.take k).length = k := by
    simp only [List.length_take]
    omega
  have hpath1 : ∀ i : Nat, i < k →
      (st.selectionPath.take k)[i]? = st.selectionPath[i]? :=
    fun i hi => List.getElem?_take_of_lt hi
  have hpath2 : ∀ i : Nat, i < k →
      (st.selectionPath.take k ++ [s])[i]? = st.selectionPath[i]? := by
    intro i hi
    rw [List.getElem?_append_left (by omega), hpath1 i hi]
  have hpathk : (st.selectionPath.take k ++ [s])[k]? = some s := by
    have h0 := List.getElem?_concat_length (st.selectionPath.take k) s
    rwa [htk] at h0
  rcases h with ⟨hne, hinv⟩
  simp only [navInvariant, handleSegmentClick]
  by_cases hC : mapGet st.selectedSegments k == some s.id
  · rw [if_neg (by simp [hC] :
        ¬((!(mapGet st.selectedSegments k == some s.id) &&
          segmentHasChildren getSegs s) = true)),
      if_pos hC]
    split_ifs with hcl
    · exact navJ_congr_path getSegs _ _ _
        (navJ_take getSegs _ _ (k + 1) (by omega) ⟨hne, hinv⟩)
        (fun i hi => hpath1 i (by simp only [List.length_take, lt_min_iff] at hi; omega))
    · exact navJ_congr_path getSegs _ _ _ ⟨hne, hinv⟩
        (fun i hi => hpath1 i (by omega))
  · rw [Bool.not_eq_true] at hC
    rw [if_neg (by simp [hC] : ¬((mapGet st.selectedSegments k == some s.id) = true))]
    by_cases hH : segmentHasChildren getSegs s = true
    · rw [if_pos (by simp [hC, hH] :
          (!(mapGet st.selectedSegments k == some s.id) &&
            segmentHasChildren getSegs s) = true)]
      cases hcn : s.childLevelName with
      | none => simp [segmentHasChildren, hcn] at hH
      | some cn =>
        have hpos : 0 < (getSegs cn s.id).length := by
          simp only [segmentHasChildren, hcn, Bool.not_eq_true'] at hH
          rw [List.isEmpty_eq_false_iff_exists_mem] at hH
          rcases hH with ⟨x, hx⟩
          exact List.length_pos.2 (List.ne_nil_of_mem hx)
        simp only []
        rw [if_pos hpos]
        have htkl : (st.levels.take (k + 1)).length = k + 1 := by
          simp only [List.length_take]
          omega
        split_ifs with hcl
        · refine navJ_append_one getSegs _ _ s _ ?_ ?_ rfl hH
          · exact navJ_congr_path getSegs _ _ _
              (navJ_take getSegs _ _ (k + 1) (by omega) ⟨hne, hinv⟩)
              (fun i hi => hpath2 i
                (by simp only [List.length_take, lt_min_iff] at hi; omega))
          · rw [htkl]
            simpa using hpathk
        · refine navJ_append_one getSegs _ _ s _ ?_ ?_ rfl hH
          · exact navJ_congr_path getSegs _ _ _ ⟨hne, hinv⟩
              (fun i hi => hpath2 i (by omega))
          · have hn : st.levels.length = k + 1 := by omega
            rw [hn]
            simpa using hpathk
    · rw [Bool.not_eq_true] at hH
      rw [if_neg (by simp [hH] :
          ¬((!(mapGet st.selectedSegments k == some s.id) &&
            segmentHasChildren getSegs s) = true))]
      split_ifs with hcl
      · exact navJ_congr_path getSegs _ _ _
          (navJ_take getSegs _ _ (k + 1) (by omega) ⟨hne, hinv⟩)
          (fun i hi => hpath2 i
            (by simp only [List.length_take, lt_min_iff] at hi; omega))
      · exact navJ_congr_path getSegs _ _ _ ⟨hne, hinv⟩
          (fun i hi => hpath2 i (by omega))

/-- `Escape` resets to a state that trivially satisfies the invariant. -/
theorem handleEscape_preserves (getSegs : String → String → List NavSeg)
    (st : NavState) (h : navInvariant getSegs st) :
    navInvariant getSegs (handleEscape st) := by
  rcases h with ⟨hne, hinv⟩
  simp only [navInvariant, handleEscape, removeLevelsFrom]
  split_ifs with hle
  · exact ⟨hne, fun k hk =>
      absurd (show k + 1 < st.levels.length from hk) (by omega)⟩
  · refine ⟨?_, fun k hk => ?_⟩
    · intro hnil
      rcases List.take_eq_nil_iff.1 hnil with h | h
      · omega
      · exact hne h
    · have hk' : k + 1 < (st.levels.take 1).length := hk
      rw [List.length_take] at hk'
      exact absurd hk' (by omega)

/-- `Backspace` truncates the level stack and preserves the invariant
(the stale path/selection tail it leaves behind is not constrained). -/
theorem handleBackspace_preserves (getSegs : String → String → List NavSeg)
    (st : NavState) (h : navInvariant getSegs st) :
    navInvariant getSegs (handleBackspace st) := by
  simp only [handleBackspace, removeLevelsFrom]
  split_ifs with h1 h2
  · exact h
  · exact navJ_take getSegs _ _ _ (by omega) h
  · exact h

/-- Every single transition preserves the invariant. -/
theorem navStep_preserves (getSegs : String → String → List NavSeg)
    (st : NavState) (op : NavOp) (h : navInvariant getSegs st) :
    navInvariant getSegs (navStep getSegs st op) := by
  cases op with
  | click s k =>
    simp only [navStep]
    split_ifs with hk
    · exact handleSegmentClick_preserves getSegs st s k hk h
    · exact h
  | escape => exact handleEscape_preserves getSegs st h
  | backspace => exact handleBackspace_preserves getSegs st h

/-- The invariant is inductive along any interaction sequence. -/
theorem navRun_preserves (getSegs : String → String → List NavSeg) :
    ∀ (ops : List NavOp) (st : NavState), navInvariant getSegs st →
      navInvariant getSegs (navRun getSegs st ops) := by
  intro ops
  induction ops with
  | nil => exact fun st h => h
  | cons op rest ih =>
    intro st h
    exact ih _ (navStep_preserves getSegs st op h)

/-- The initial single-level state satisfies the invariant. -/
theorem navInvariant_init (getSegs : String → String → List NavSeg)
    (ovw : List NavSeg) : navInvariant getSegs (navInit ovw) := by
  refine ⟨by simp [navInit], fun k hk => absurd hk (by simp [navInit])⟩

/-- **C2** (amended): after any sequence of segment clicks, Escape and
Backspace operations from the initial overview state, the root level
is always displayed and every deeper displayed level `k+1` is the
child level of the `k`-th selection-path entry — a segment with
children whose id is the level's `parentSegmentId` — so the number of
displayed levels never exceeds the selection-path length plus one.
The stronger claimed equality fails, and stale selection entries can
remain for removed levels (see the counterexample). -/
theorem C2_navigation_stack_invariant (getSegs : String → String → List NavSeg)
    (ovw : List NavSeg) (ops : List NavOp) :
    navInvariant getSegs (navRun getSegs (navInit ovw) ops) ∧
    (navRun getSegs (navInit ovw) ops).levels.length ≤
      (navRun getSegs (navInit ovw) ops).selectionPath.length + 1 := by
  have h := navRun_preserves getSegs ops (navInit ovw) (navInvariant_init getSegs ovw)
  exact ⟨h, navInvariant_le getSegs _ h⟩

/-- C2 fixture analyzer: segment `A` has child level `columnchunks`
containing `C`; `C` has child level `pages` containing the leaf `E`. -/
def exGetSegs : String → String → List NavSeg
  | "columnchunks", "A" => [⟨"C", some "pages"⟩]
  | "pages", "C" => [⟨"E", none⟩]
  | _, _ => []

/-- **C2** counterexample: clicking `A`, `C`, `E` and pressing
Backspace leaves 2 displayed levels while the selection path still
holds 3 segments, 2 of which have children (the claimed count would
give 1 + 2 = 3 levels), and the stale selection entry `(2, "E")`
survives for the removed level — Backspace prunes neither
`selectedSegments` nor `selectionPath`. -/
theorem C2_backspace_counterexample :
    (navRun exGetSegs (navInit [⟨"A", some "columnchunks"⟩])
      [.click ⟨"A", some "columnchunks"⟩ 0, .click ⟨"C", some "pages"⟩ 1,
       .click ⟨"E", none⟩ 2, .backspace]).levels.length = 2 ∧
    (navRun exGetSegs (navInit [⟨"A", some "columnchunks"⟩])
      [.click ⟨"A", some "columnchunks"⟩ 0, .click ⟨"C", some "pages"⟩ 1,
       .click ⟨"E", none⟩ 2, .backspace]).selectionPath.length = 3 ∧
    ((navRun exGetSegs (navInit [⟨"A", some "columnchunks"⟩])
      [.click ⟨"A", some "columnchunks"⟩ 0, .click ⟨"C", some "pages"⟩ 1,
       .click ⟨"E", none⟩ 2, .backspace]).selectionPath.filter
        (fun s => segmentHasChildren exGetSegs s)).length = 2 ∧
    mapGet (navRun exGetSegs (navInit [⟨"A", some "columnchunks"⟩])
      [.click ⟨"A", some "columnchunks"⟩ 0, .click ⟨"C", some "pages"⟩ 1,
       .click ⟨"E", none⟩ 2, .backspace]).selectedSegments 2 = some "E" := by
  decide

/-- **C2** witness: the amended invariant instantiated on a concrete
click-then-Backspace trace bounds the stack by the path length. -/
theorem C2_navigation_stack_invariant_witness :
    (navRun exGetSegs (navInit [⟨"A", some "columnchunks"⟩])
      [.click ⟨"A", some "columnchunks"⟩ 0, .backspace]).levels.length ≤
    (navRun exGetSegs (navInit [⟨"A", some "columnchunks"⟩])
      [.click ⟨"A", some "columnchunks"⟩ 0, .backspace]).selectionPath.length + 1 :=
  (C2_navigation_stack_invariant exGetSegs [⟨"A", some "columnchunks"⟩]
    [.click ⟨"A", some "columnchunks"⟩ 0, .backspace]).2
